import Mathlib

/-!
Shallow embedding of `src/bls_data_merge.py`, a pandas pipeline that merges
four BLS (Bureau of Labor Statistics) occupational-wage tables into one
wide-format dataset.

Tables are modelled as a column-name list plus rows of optional cells
(`none` models a pandas missing value, NA/NaN).  A cell holds either a
string (the `dtype=str` load) or a number (after `pd.to_numeric`).
Numbers are modelled as canonical decimals `mant / 10 ^ exp` instead of
floats.  Fallible pandas operations (column lookup raising `KeyError`)
return `Except String`.

Modelled pandas semantics used by the script:
* `DataFrame.replace(regex)` applies to every column;
* `pd.merge(..., how="left")` keeps left order, fans out on multiple
  matches, fills unmatched right columns with NA, and treats two NA join
  keys as equal;
* `pivot_table(index, columns, values, aggfunc="first")` groups by
  index+columns keys (rows with an NA key are dropped), takes the first
  non-null value per group, drops groups whose aggregate is NA, and sorts
  both the row keys and the column labels.
-/

namespace BLS

/-- Canonical decimal number: the value `mant / 10 ^ exp`.  The parser
only produces canonical representatives (trailing factors of ten are
stripped), so structural equality coincides with value equality for
parsed cells. -/
structure Dec where
  mant : Int
  exp : Nat
deriving DecidableEq, Repr

/-- Strip common factors of ten from `(m, e)` (value `m / 10 ^ e`),
recursing on the exponent. -/
def canonAux : Nat → Nat → Nat × Nat
  | m, 0 => (m, 0)
  | m, e + 1 => if m % 10 = 0 then canonAux (m / 10) e else (m, e + 1)

/-- Build the canonical decimal for `± m * 10 ^ sexp`. -/
def mkDec (neg : Bool) (m : Nat) (sexp : Int) : Dec :=
  match sexp with
  | .ofNat k =>
      ⟨(if neg then -(m * 10 ^ k : Int) else (m * 10 ^ k : Int)), 0⟩
  | .negSucc k =>
      let p := canonAux m (k + 1)
      ⟨(if neg then -(p.1 : Int) else (p.1 : Int)), p.2⟩

/-- Value of a digit list, most significant first. -/
def digitsVal (l : List Char) : Nat :=
  l.foldl (fun n c => n * 10 + (c.toNat - 48)) 0

/-- Strip leading and trailing whitespace, the model of Python
`str.strip()` / pandas `str.strip()`. -/
def trimChars (l : List Char) : List Char :=
  ((l.dropWhile Char.isWhitespace).reverse.dropWhile Char.isWhitespace).reverse

/-- Trim a string's surrounding whitespace. -/
def trimS (s : String) : String := ⟨trimChars s.data⟩

/-- Parse an optional exponent suffix: an optionally signed digit run.
Returns the exponent and the unconsumed tail. -/
def expPart (cs : List Char) : Option Int × List Char :=
  let core : Bool → List Char → Option Int × List Char := fun neg r =>
    let ds := r.takeWhile Char.isDigit
    let rest := r.dropWhile Char.isDigit
    if ds.isEmpty then (none, rest)
    else (some (if neg then -(digitsVal ds : Int) else (digitsVal ds : Int)), rest)
  match cs with
  | '+' :: r => core false r
  | '-' :: r => core true r
  | r => core false r

/-- Finish parsing once the optional `e`/`E` marker was consumed. -/
def withExp (neg : Bool) (ip fp r : List Char) : Option Dec :=
  match expPart r with
  | (some e, []) => some (mkDec neg (digitsVal (ip ++ fp)) (e - (fp.length : Int)))
  | _ => none

/-- Model of `pd.to_numeric` on one string: trims, then accepts an
optionally signed decimal literal with optional fraction and exponent;
anything else is `none` (the `errors="coerce"` policy). -/
def parseDec (s : String) : Option Dec :=
  let cs0 := trimChars s.data
  let p :=
    match cs0 with
    | '-' :: r => (true, r)
    | '+' :: r => (false, r)
    | _ => (false, cs0)
  let neg := p.1
  let ip := p.2.takeWhile Char.isDigit
  let cs2 := p.2.dropWhile Char.isDigit
  let q :=
    match cs2 with
    | '.' :: r => (r.takeWhile Char.isDigit, r.dropWhile Char.isDigit)
    | _ => ([], cs2)
  let fp := q.1
  if ip.isEmpty && fp.isEmpty then none
  else
    match q.2 with
    | [] => some (mkDec neg (digitsVal (ip ++ fp)) (0 - (fp.length : Int)))
    | 'e' :: r => withExp neg ip fp r
    | 'E' :: r => withExp neg ip fp r
    | _ => none

/-- A cell value: a string (as loaded with `dtype=str`) or a number
(after `pd.to_numeric`). -/
inductive CellV where
  | str (s : String)
  | num (d : Dec)
deriving DecidableEq, Repr

/-- A cell: `none` is pandas NA/NaN. -/
abbrev Cell := Option CellV

/-- A DataFrame: named columns and rows of cells.  A row shorter than
`cols` reads as NA in the missing positions. -/
structure Table where
  cols : List String
  rows : List (List Cell)
deriving DecidableEq, Repr

/-- Cell of a row at a position; out-of-range reads are NA. -/
def cellAt : List Cell → Nat → Cell
  | [], _ => none
  | c :: _, 0 => c
  | _ :: r, i + 1 => cellAt r i

/-- Index of the first column with the given name. -/
def colIdx : List String → String → Option Nat
  | [], _ => none
  | c0 :: cs, c => if c0 = c then some 0 else (colIdx cs c).map (· + 1)

/-- Cell of a row in the column of the given name (NA when the column is
absent); the reading counterpart of pandas `df[name]` for one row. -/
def getCol (t : Table) (c : String) (r : List Cell) : Cell :=
  match colIdx t.cols c with
  | some i => cellAt r i
  | none => none

/-- Pad (or cut) a row to exactly `w` cells, missing positions NA. -/
def padTo : Nat → List Cell → List Cell
  | 0, _ => []
  | w + 1, [] => none :: padTo w []
  | w + 1, c :: r => c :: padTo w r

/-- Apply `f` to the cell at position `i`. -/
def mapAt : List Cell → Nat → (Cell → Cell) → List Cell
  | [], _, _ => []
  | c :: r, 0, f => f c :: r
  | c :: r, i + 1, f => c :: mapAt r i f

/-- Keep the cells of a (padded) row whose column name satisfies `keep`. -/
def filterRow (keep : String → Bool) : List String → List Cell → List Cell
  | [], _ => []
  | _ :: _, [] => []
  | c :: cs, x :: xs =>
      if keep c then x :: filterRow keep cs xs else filterRow keep cs xs

/-- Strip whitespace from all column names:
`df.columns = df.columns.str.strip()`. -/
def stripCols (t : Table) : Table := ⟨t.cols.map trimS, t.rows⟩

/-- `df[df[c] == v]` (an NA cell never equals a string). -/
def filterEqStr (t : Table) (c v : String) : Except String Table :=
  match colIdx t.cols c with
  | some i => .ok ⟨t.cols, t.rows.filter (fun r => decide (cellAt r i = some (.str v)))⟩
  | none => .error ("KeyError: " ++ c)

/-- `df[df[c].isin vs]` (an NA cell is never in the list). -/
def filterMemStr (t : Table) (c : String) (vs : List String) : Except String Table :=
  match colIdx t.cols c with
  | some i =>
      .ok ⟨t.cols, t.rows.filter (fun r =>
        match cellAt r i with
        | some (.str s) => decide (s ∈ vs)
        | _ => false)⟩
  | none => .error ("KeyError: " ++ c)

/-- `df.drop(columns=cs, errors="ignore")`. -/
def dropCols (t : Table) (cs : List String) : Table :=
  ⟨t.cols.filter (fun c => !(decide (c ∈ cs))),
   t.rows.map (fun r => filterRow (fun c => !(decide (c ∈ cs))) t.cols (padTo t.cols.length r))⟩

/-- One cell under `df.replace(regex dash, NA)`: a string that is a lone
dash with surrounding whitespace becomes NA. -/
def dashToNA (c : Cell) : Cell :=
  match c with
  | some (.str s) => if trimChars s.data = ['-'] then none else some (.str s)
  | c => c

/-- `df.replace(regex dash, NA)` over every column of every row. -/
def replaceDashAll (t : Table) : Table :=
  ⟨t.cols, t.rows.map (fun r => r.map dashToNA)⟩

/-- One cell under `pd.to_numeric(..., errors="coerce")`. -/
def numCell (c : Cell) : Cell :=
  match c with
  | some (.str s) => (parseDec s).map .num
  | c => c

/-- `df[c] = pd.to_numeric(df[c], errors="coerce")`. -/
def toNumericCol (t : Table) (c : String) : Except String Table :=
  match colIdx t.cols c with
  | some i => .ok ⟨t.cols, t.rows.map (fun r => mapAt (padTo t.cols.length r) i numCell)⟩
  | none => .error ("KeyError: " ++ c)

/-- `df[c] = df[c].fillna(v)`. -/
def fillnaCol (t : Table) (c v : String) : Except String Table :=
  match colIdx t.cols c with
  | some i =>
      .ok ⟨t.cols, t.rows.map (fun r => mapAt (padTo t.cols.length r) i (fun x =>
        match x with
        | none => some (.str v)
        | x => x))⟩
  | none => .error ("KeyError: " ++ c)

/-- `df[cs]`: project onto the named columns (KeyError when one is
absent). -/
def selectCols (t : Table) (cs : List String) : Except String Table :=
  if cs.all (fun c => decide (c ∈ t.cols)) then
    .ok ⟨cs, t.rows.map (fun r => cs.map (fun c => getCol t c r))⟩
  else .error "KeyError: column selection"

/-- Names of the right table's columns that survive a merge on `key`. -/
def rightNames (cols2 : List String) (key : String) : List String :=
  cols2.filter (fun c => !(decide (c = key)))

/-- Right-table rows whose key cell equals `k`.  Two NA keys are equal
here, exactly as in `pd.merge`. -/
def rowMatches (i2 : Nat) (k : Cell) (rows2 : List (List Cell)) : List (List Cell) :=
  rows2.filter (fun r2 => decide (cellAt r2 i2 = k))

/-- Rows a single left row contributes to a left merge: one NA-filled row
when nothing matches, otherwise one row per match. -/
def mergeEmit (w1 : Nat) (cols2 : List String) (key : String) (i2 : Nat)
    (rows2 : List (List Cell)) (r1 : List Cell) (k : Cell) : List (List Cell) :=
  match rowMatches i2 k rows2 with
  | [] => [padTo w1 r1 ++ List.replicate (rightNames cols2 key).length none]
  | m :: ms =>
      (m :: ms).map (fun r2 =>
        padTo w1 r1 ++ filterRow (fun c => !(decide (c = key))) cols2 (padTo cols2.length r2))

/-- `pd.merge(t1, t2, on=key, how="left")`. -/
def mergeLeft (t1 t2 : Table) (key : String) : Except String Table :=
  match colIdx t1.cols key, colIdx t2.cols key with
  | some i1, some i2 =>
      .ok ⟨t1.cols ++ rightNames t2.cols key,
           t1.rows.flatMap (fun r1 =>
             mergeEmit t1.cols.length t2.cols key i2 t2.rows r1 (cellAt r1 i1))⟩
  | _, _ => .error ("KeyError: " ++ key)

/-! ## Pivot stage -/

/-- Ordering of decimals by value. -/
def decLe (a b : Dec) : Bool :=
  decide (a.mant * (10 : Int) ^ b.exp ≤ b.mant * (10 : Int) ^ a.exp)

/-- Lexicographic ordering of char lists by code point. -/
def charListLe : List Char → List Char → Bool
  | [], _ => true
  | _ :: _, [] => false
  | a :: as, b :: bs =>
      if a.toNat < b.toNat then true
      else if b.toNat < a.toNat then false
      else charListLe as bs

/-- Deterministic ordering of cell values; numbers sort before strings. -/
def CellV.le : CellV → CellV → Bool
  | .num a, .num b => decLe a b
  | .num _, .str _ => true
  | .str _, .num _ => false
  | .str a, .str b => charListLe a.data b.data

/-- Lexicographic ordering of pivot row keys. -/
def keyLe (a b : CellV × CellV) : Bool :=
  if a.1 = b.1 then CellV.le a.2 b.2 else CellV.le a.1 b.1

/-- Ordered insertion for `sortLe`. -/
def insertLe (le : α → α → Bool) (x : α) : List α → List α
  | [] => [x]
  | y :: ys => if le x y then x :: y :: ys else y :: insertLe le x ys

/-- Insertion sort; models the ascending sort `pivot_table` applies to
group keys and to the unstacked column labels. -/
def sortLe (le : α → α → Bool) : List α → List α
  | [] => []
  | x :: xs => insertLe le x (sortLe le xs)

/-- Pivot column name derived from a label cell value. -/
def CellV.toColName : CellV → String
  | .str s => s
  | .num d => Int.repr d.mant ++ "e-" ++ Nat.repr d.exp

/-- First non-null cell of a list: pandas `GroupBy.first`. -/
def firstSome : List Cell → Option CellV
  | [] => none
  | none :: r => firstSome r
  | some v :: _ => some v

/-- First value associated to a key in an association list. -/
def lookupKey [DecidableEq κ] (k : κ) : List (κ × CellV) → Option CellV
  | [] => none
  | (k0, v) :: r => if k0 = k then some v else lookupKey k r

/-- The long-format content of the pivot: one entry per row whose three
group-key cells (two index keys and the label) are all non-NA, keyed by
those cells and carrying the value cell.  Rows with an NA group key are
dropped, as by `groupby(dropna=True)`. -/
def pivotLong (rows : List (List Cell)) (j1 j2 jc jv : Nat) :
    List ((CellV × CellV × CellV) × Cell) :=
  rows.filterMap (fun r =>
    match cellAt r j1, cellAt r j2, cellAt r jc with
    | some a, some b, some c => some ((a, b, c), cellAt r jv)
    | _, _, _ => none)

/-- Value cells of one `(index, index, label)` group in input order. -/
def groupVals (rows : List (List Cell)) (j1 j2 jc jv : Nat)
    (k : CellV × CellV × CellV) : List Cell :=
  ((pivotLong rows j1 j2 jc jv).filter (fun p => decide (p.1 = k))).map Prod.snd

/-- The aggregated groups: one entry per distinct group key, holding the
first non-null value of the group; groups whose values are all NA are
dropped (`aggfunc="first"` followed by `dropna(how="all")`). -/
def pivotAgged (rows : List (List Cell)) (j1 j2 jc jv : Nat) :
    List ((CellV × CellV × CellV) × CellV) :=
  ((pivotLong rows j1 j2 jc jv).map Prod.fst).dedup.filterMap (fun k =>
    (firstSome (groupVals rows j1 j2 jc jv k)).map (fun v => (k, v)))

/-- Sorted distinct row keys of the pivot output. -/
def pivotRowKeys (rows : List (List Cell)) (j1 j2 jc jv : Nat) :
    List (CellV × CellV) :=
  sortLe keyLe (((pivotAgged rows j1 j2 jc jv).map (fun p => (p.1.1, p.1.2.1))).dedup)

/-- Sorted distinct labels of the pivot output. -/
def pivotLabels (rows : List (List Cell)) (j1 j2 jc jv : Nat) : List CellV :=
  sortLe CellV.le (((pivotAgged rows j1 j2 jc jv).map (fun p => p.1.2.2)).dedup)

/-- One output row of the pivot. -/
def pivotRow (rows : List (List Cell)) (j1 j2 jc jv : Nat)
    (ab : CellV × CellV) : List Cell :=
  some ab.1 :: some ab.2 ::
    (pivotLabels rows j1 j2 jc jv).map (fun l =>
      lookupKey (ab.1, ab.2, l) (pivotAgged rows j1 j2 jc jv))

/-- `df.pivot_table(index=[k1, k2], columns=cc, values=vc,
aggfunc="first").reset_index()`. -/
def pivotTable (t : Table) (k1 k2 cc vc : String) : Except String Table :=
  match colIdx t.cols k1, colIdx t.cols k2, colIdx t.cols cc, colIdx t.cols vc with
  | some j1, some j2, some jc, some jv =>
      .ok ⟨k1 :: k2 :: (pivotLabels t.rows j1 j2 jc jv).map CellV.toColName,
           (pivotRowKeys t.rows j1 j2 jc jv).map (pivotRow t.rows j1 j2 jc jv)⟩
  | _, _, _, _ => .error "KeyError: pivot"

/-! ## The pipeline stages of the script -/

/-- The five wage measures kept from `oe.datatype` (lines 45-51). -/
def desired_datatypes : List String :=
  ["Annual 10th percentile wage", "Annual 25th percentile wage",
   "Annual 75th percentile wage", "Annual 90th percentile wage",
   "Annual median wage"]

/-- Columns dropped from the series table (lines 31-33). -/
def series_drop_cols : List String :=
  ["footnote_codes", "begin_year", "begin_period", "end_period",
   "seasonal", "areatype_code", "industry_code", "state_code",
   "sector_code", "series_title"]

/-- Section 1 of the script: strip the column names of `oe.series`,
keep rows with `areatype_code == "M"` and `datatype_code` in the
allow-list, and drop the unneeded columns (lines 22-34). -/
def series_df (t : Table) : Except String Table := do
  let t := stripCols t
  let t ← filterEqStr t "areatype_code" "M"
  let t ← filterMemStr t "datatype_code" ["11", "12", "13", "14", "15"]
  pure (dropCols t series_drop_cols)

/-- Section 2 of the script: strip the column names of `oe.datatype` and
keep the five wage-percentile labels (lines 42-52). -/
def datatype_df (t : Table) : Except String Table := do
  let t := stripCols t
  filterMemStr t "datatype_name" desired_datatypes

/-- Section 3 of the script: strip the column names of `oe.occupation`
and drop `selectable` and `display_level` (lines 60-63). -/
def occupation_df (t : Table) : Table :=
  dropCols (stripCols t) ["selectable", "display_level"]

/-- Section 4 of the script: strip the column names of
`oe.data.0.Current`, replace lone-dash cells with NA in every column,
drop `footnote_codes`, `year` and `period`, and coerce `value` to
numeric (lines 71-80). -/
def current_df (t : Table) : Except String Table := do
  let t := stripCols t
  let t := replaceDashAll t
  let t := dropCols t ["footnote_codes", "year", "period"]
  toNumericCol t "value"

/-- Section 5, first half: the two left merges, the `MISSING` fill and
the key-column drop that produce the long-format relation
(lines 88-100). -/
def merged_df (s c d : Table) : Except String Table := do
  let m ← mergeLeft s c "series_id"
  let m ← mergeLeft m d "datatype_code"
  let m ← fillnaCol m "datatype_name" "MISSING"
  pure (dropCols m ["series_id", "datatype_code"])

/-- Section 5, second half: the pivot (lines 105-111). -/
def pivot_df (m : Table) : Except String Table :=
  pivotTable m "occupation_code" "area_code" "datatype_name" "value"

/-- Lines 116-121: select the three occupation columns and left-merge the
pivoted table with them. -/
def final_df (p occ : Table) : Except String Table := do
  let osel ← selectCols occ ["occupation_code", "occupation_name", "occupation_description"]
  mergeLeft p osel "occupation_code"

/-- The whole pipeline, from the four freshly loaded tables to the final
relation that is exported. -/
def run (series datatype occupation current : Table) : Except String Table := do
  let s ← series_df series
  let d ← datatype_df datatype
  let o := occupation_df occupation
  let c ← current_df current
  let m ← merged_df s c d
  let p ← pivot_df m
  final_df p o

/-! ## Concrete tables used to instantiate and to refute claims -/

/-- Shorthand for a string cell. -/
def cstr (s : String) : Cell := some (.str s)

/-- Shorthand for a numeric cell. -/
def cnum (m : Int) (e : Nat) : Cell := some (.num ⟨m, e⟩)

/-- A one-row series table passing both series filters. -/
def seriesEx : Table :=
  ⟨["series_id", "areatype_code", "datatype_code", "occupation_code", "area_code"],
   [[cstr "S1", cstr "M", cstr "11", cstr "O1", cstr "A1"]]⟩

/-- A one-row data-type table with an allow-listed label. -/
def datatypeEx : Table :=
  ⟨["datatype_code", "datatype_name"], [[cstr "11", cstr "Annual median wage"]]⟩

/-- A one-row occupation lookup table. -/
def occupationEx : Table :=
  ⟨["occupation_code", "occupation_name", "occupation_description"],
   [[cstr "O1", cstr "Nurse", cstr "Cares for patients"]]⟩

/-- A one-row observation table with a numeric value. -/
def currentEx : Table :=
  ⟨["series_id", "value"], [[cstr "S1", cstr "45000"]]⟩

/-- A one-row observation table whose value is the missing-data dash. -/
def currentDashEx : Table :=
  ⟨["series_id", "value"], [[cstr "S1", cstr "-"]]⟩

/-- A long-format table in which the first row of the only
(key, label) group carries a null value and the second a number. -/
def mergedPairEx : Table :=
  ⟨["occupation_code", "area_code", "datatype_name", "value"],
   [[cstr "O1", cstr "A1", cstr "L", none],
    [cstr "O1", cstr "A1", cstr "L", cnum 5 0]]⟩

/-- The pivot of `mergedPairEx`: one row, whose only label cell holds the
first non-null group value. -/
def pivotPairEx : Table :=
  ⟨["occupation_code", "area_code", "L"], [[cstr "O1", cstr "A1", cnum 5 0]]⟩

/-- The final relation built from `pivotPairEx` and `occupationEx`. -/
def finalPairEx : Table :=
  ⟨["occupation_code", "area_code", "L", "occupation_name", "occupation_description"],
   [[cstr "O1", cstr "A1", cnum 5 0, cstr "Nurse", cstr "Cares for patients"]]⟩

/-- The long-format relation produced by `merged_df` from the processed
example tables. -/
def mergedProcEx : Table :=
  ⟨["occupation_code", "area_code", "value", "datatype_name"],
   [[cstr "O1", cstr "A1", cnum 45000 0, cstr "Annual median wage"]]⟩

/-- The pivot of `mergedProcEx`. -/
def pivotProcEx : Table :=
  ⟨["occupation_code", "area_code", "Annual median wage"],
   [[cstr "O1", cstr "A1", cnum 45000 0]]⟩

/-- A series table whose only row has a null series_id. -/
def seriesNullIdEx : Table :=
  ⟨["series_id", "areatype_code", "datatype_code", "occupation_code", "area_code"],
   [[none, cstr "M", cstr "11", cstr "O1", cstr "A1"]]⟩

/-- An observation table whose series_id is a whitespace-padded dash. -/
def currentDashIdEx : Table :=
  ⟨["series_id", "value"], [[cstr " - ", cstr "45000"]]⟩

/-- The processed form of `currentDashEx`: the dash value is NA. -/
def currentDashProcEx : Table :=
  ⟨["series_id", "value"], [[cstr "S1", none]]⟩

/-- The processed form of `currentDashIdEx`: the dash series_id is NA. -/
def currentDashIdProcEx : Table :=
  ⟨["series_id", "value"], [[none, cnum 45000 0]]⟩

/-- An observation table whose value column is upper-cased. -/
def currentUpperEx : Table :=
  ⟨["series_id", "VALUE"], [[cstr "S1", cstr "45000"]]⟩

/-- An observation table with no value column at all. -/
def currentNoValueEx : Table :=
  ⟨["series_id"], [[cstr "S1"]]⟩

/-- A two-row key-only series table. -/
def seriesPairEx : Table :=
  ⟨["series_id"], [[cstr "S1"], [cstr "S2"]]⟩

/-- An observation table in which S1 occurs twice (a fan-out). -/
def currentFanEx : Table :=
  ⟨["series_id", "value"], [[cstr "S1", cnum 1 0], [cstr "S1", cnum 2 0]]⟩

/-- The left-merge of `seriesPairEx` with `currentFanEx`: S1 fans out to
its two observations and the unmatched S2 row is NA-filled. -/
def mergeFanEx : Table :=
  ⟨["series_id", "value"],
   [[cstr "S1", cnum 1 0], [cstr "S1", cnum 2 0], [cstr "S2", none]]⟩

/-- A series table as it looks after the series stage. -/
def seriesProcEx : Table :=
  ⟨["series_id", "datatype_code", "occupation_code", "area_code"],
   [[cstr "S1", cstr "11", cstr "O1", cstr "A1"]]⟩

/-- An observation table as it looks after the observation stage. -/
def currentProcEx : Table :=
  ⟨["series_id", "value"], [[cstr "S1", cnum 45000 0]]⟩

/-- Reading a row's cell by column name as an association-list lookup:
the cell under the first column of the given name. -/
def assocCell (keyc : String) : List String → List Cell → Cell
  | [], _ => none
  | _ :: _, [] => none
  | c0 :: cs, x :: xs => if c0 = keyc then x else assocCell keyc cs xs

/-! ## Basic lemmas about rows and cells -/

theorem cellAt_nil (i : Nat) : cellAt [] i = none := by
  cases i <;> rfl

theorem cellAt_append_lt (l1 l2 : List Cell) (i : Nat) (h : i < l1.length) :
    cellAt (l1 ++ l2) i = cellAt l1 i := by
  induction l1 generalizing i with
  | nil => simp at h
  | cons x xs ih =>
      cases i with
      | zero => rfl
      | succ j => exact ih j (by simpa using h)

theorem cellAt_append_ge (l1 l2 : List Cell) (i : Nat) (h : l1.length ≤ i) :
    cellAt (l1 ++ l2) i = cellAt l2 (i - l1.length) := by
  induction l1 generalizing i with
  | nil => simp [cellAt]
  | cons x xs ih =>
      cases i with
      | zero => simp at h
      | succ j =>
          simpa using ih j (by simpa using h)

theorem padTo_length (w : Nat) (r : List Cell) : (padTo w r).length = w := by
  induction w generalizing r with
  | zero => rfl
  | succ n ih => cases r <;> simp [padTo, ih]

theorem cellAt_padTo (w : Nat) (r : List Cell) (i : Nat) (h : i < w) :
    cellAt (padTo w r) i = cellAt r i := by
  induction w generalizing r i with
  | zero => simp at h
  | succ n ih =>
      cases r with
      | nil =>
          cases i with
          | zero => rfl
          | succ j => simpa [padTo, cellAt, cellAt_nil] using ih [] j (by omega)
      | cons x xs =>
          cases i with
          | zero => rfl
          | succ j => exact ih xs j (by omega)

theorem padTo_of_length_eq (w : Nat) (r : List Cell) (h : r.length = w) :
    padTo w r = r := by
  induction w generalizing r with
  | zero => cases r with | nil => rfl | cons x xs => simp at h
  | succ n ih =>
      cases r with
      | nil => simp at h
      | cons x xs => simp [padTo, ih xs (by simpa using h)]

theorem cellAt_replicate (n i : Nat) : cellAt (List.replicate n (none : Cell)) i = none := by
  induction n generalizing i with
  | zero => simp [cellAt_nil]
  | succ m ih =>
      cases i with
      | zero => rfl
      | succ j => simpa [List.replicate] using ih j

theorem mapAt_length (r : List Cell) (i : Nat) (f : Cell → Cell) :
    (mapAt r i f).length = r.length := by
  induction r generalizing i with
  | nil => rfl
  | cons x xs ih => cases i <;> simp [mapAt, ih]

theorem cellAt_mapAt_self (r : List Cell) (i : Nat) (f : Cell → Cell)
    (h : i < r.length) : cellAt (mapAt r i f) i = f (cellAt r i) := by
  induction r generalizing i with
  | nil => simp at h
  | cons x xs ih =>
      cases i with
      | zero => rfl
      | succ j => exact ih j (by simpa using h)

theorem cellAt_mapAt_ne (r : List Cell) (i j : Nat) (f : Cell → Cell)
    (h : j ≠ i) : cellAt (mapAt r i f) j = cellAt r j := by
  induction r generalizing i j with
  | nil => rfl
  | cons x xs ih =>
      cases i with
      | zero => cases j with
          | zero => exact absurd rfl h
          | succ j' => rfl
      | succ i' =>
          cases j with
          | zero => rfl
          | succ j' => exact ih i' j' (by omega)

theorem colIdx_none_iff (cols : List String) (c : String) :
    colIdx cols c = none ↔ c ∉ cols := by
  induction cols with
  | nil => simp [colIdx]
  | cons c0 cs ih =>
      by_cases h : c0 = c
      · subst h; simp [colIdx]
      · simp [colIdx, h, ih, Option.map_eq_none, Ne.symm h]

theorem colIdx_lt_length (cols : List String) (c : String) (i : Nat)
    (h : colIdx cols c = some i) : i < cols.length := by
  induction cols generalizing i with
  | nil => simp [colIdx] at h
  | cons c0 cs ih =>
      rw [colIdx] at h
      by_cases h0 : c0 = c
      · rw [if_pos h0] at h
        injection h with h
        simp [← h]
      · rw [if_neg h0] at h
        cases hm : colIdx cs c with
        | none => rw [hm] at h; simp at h
        | some j =>
            rw [hm] at h
            have hji : i = j + 1 := by simpa using h.symm
            have := ih j hm
            simp only [List.length_cons]
            omega

theorem colIdx_cols_get (cols : List String) (c : String) (i : Nat)
    (h : colIdx cols c = some i) : cols.getD i "" = c := by
  induction cols generalizing i with
  | nil => simp [colIdx] at h
  | cons c0 cs ih =>
      rw [colIdx] at h
      by_cases h0 : c0 = c
      · rw [if_pos h0] at h
        injection h with h
        rw [← h]
        simpa using h0
      · rw [if_neg h0] at h
        cases hm : colIdx cs c with
        | none => rw [hm] at h; simp at h
        | some j =>
            rw [hm] at h
            have hji : i = j + 1 := by simpa using h.symm
            rw [hji]
            simpa using ih j hm

/-! ## The association view of reading a cell by column name -/

theorem assoc_eq_colIdx (c : String) (cols : List String) (r : List Cell) :
    assocCell c cols r =
      (match colIdx cols c with
       | some i => cellAt r i
       | none => none) := by
  induction cols generalizing r with
  | nil => simp [assocCell, colIdx]
  | cons c0 cs ih =>
      by_cases h0 : c0 = c
      · cases r with
        | nil =>
            simp [assocCell, colIdx, h0, cellAt_nil]
        | cons x xs => simp [assocCell, colIdx, h0, cellAt]
      · cases r with
        | nil =>
            rw [colIdx]
            rw [if_neg h0]
            cases hm : colIdx cs c with
            | none => simp [assocCell]
            | some j => simp [assocCell, cellAt_nil]
        | cons x xs =>
            rw [colIdx]
            rw [if_neg h0]
            cases hm : colIdx cs c with
            | none => simpa [assocCell, h0, hm] using ih xs
            | some j => simpa [assocCell, h0, hm, cellAt] using ih xs

theorem getCol_eq_assoc (t : Table) (c : String) (r : List Cell) :
    getCol t c r = assocCell c t.cols r := by
  rw [getCol, assoc_eq_colIdx]

theorem assoc_not_mem (c : String) (cols : List String) (r : List Cell)
    (h : c ∉ cols) : assocCell c cols r = none := by
  induction cols generalizing r with
  | nil => rfl
  | cons c0 cs ih =>
      cases r with
      | nil => rfl
      | cons x xs =>
          have h0 : c0 ≠ c := fun he => h (by simp [he])
          simp only [assocCell, if_neg h0]
          exact ih xs (fun hm => h (by simp [hm]))

theorem assoc_append (c : String) (cols1 cols2 : List String)
    (r1 r2 : List Cell) (hlen : r1.length = cols1.length) :
    assocCell c (cols1 ++ cols2) (r1 ++ r2) =
      (if c ∈ cols1 then assocCell c cols1 r1 else assocCell c cols2 r2) := by
  induction cols1 generalizing r1 with
  | nil =>
      cases r1 with
      | nil => simp
      | cons x xs => simp at hlen
  | cons c0 cs ih =>
      cases r1 with
      | nil => simp at hlen
      | cons x xs =>
          by_cases h0 : c0 = c
          · simp [assocCell, h0]
          · have hx := ih xs (by simpa using hlen)
            simp only [List.cons_append, assocCell, if_neg h0]
            simp only [List.append_eq]
            rw [hx]
            by_cases hm : c ∈ cs
            · simp [hm, Ne.symm h0]
            · simp [hm, Ne.symm h0, h0]

theorem assoc_replicate (c : String) (cols : List String) (n : Nat) :
    assocCell c cols (List.replicate n none) = none := by
  induction cols generalizing n with
  | nil => rfl
  | cons c0 cs ih =>
      cases n with
      | zero => rfl
      | succ m =>
          simp only [List.replicate, assocCell]
          by_cases h0 : c0 = c
          · simp [h0]
          · simpa [h0] using ih m

theorem assoc_nil_row (c : String) (cols : List String) :
    assocCell c cols [] = none := by
  cases cols <;> rfl

theorem assoc_filterRow (c : String) (keep : String → Bool)
    (cols : List String) (r : List Cell) :
    assocCell c (cols.filter keep) (filterRow keep cols r) =
      (if keep c then assocCell c cols r else none) := by
  induction cols generalizing r with
  | nil => simp [assocCell, filterRow, assoc_nil_row]
  | cons c0 cs ih =>
      cases r with
      | nil =>
          rw [filterRow, assoc_nil_row, assoc_nil_row]
          simp
      | cons x xs =>
          by_cases hkc : keep c0
          · by_cases h0 : c0 = c
            · subst h0
              simp [List.filter_cons, hkc, filterRow, assocCell]
            · simp only [List.filter_cons, hkc, if_true, filterRow, assocCell,
                if_neg h0]
              exact ih xs
          · have h0 : keep c = true → c0 ≠ c := by
              intro hk he
              rw [he, hk] at hkc
              simp at hkc
            rw [List.filter_cons, filterRow]
            simp only [hkc, if_false, Bool.false_eq_true]
            rw [ih xs]
            by_cases hk : keep c
            · simp [hk, assocCell, if_neg (h0 hk)]
            · simp [hk]

/-! ## Sorting lemmas -/

theorem insertLe_perm (le : α → α → Bool) (x : α) (l : List α) :
    (insertLe le x l).Perm (x :: l) := by
  induction l with
  | nil => exact List.Perm.refl _
  | cons y ys ih =>
      rw [insertLe]
      by_cases h : le x y
      · simp [h]
      · simp only [h, if_false, Bool.false_eq_true]
        exact (ih.cons y).trans (List.Perm.swap x y ys)

theorem sortLe_perm (le : α → α → Bool) (l : List α) :
    (sortLe le l).Perm l := by
  induction l with
  | nil => exact List.Perm.refl _
  | cons x xs ih =>
      exact (insertLe_perm le x (sortLe le xs)).trans (ih.cons x)

theorem mem_sortLe (le : α → α → Bool) (l : List α) (a : α) :
    a ∈ sortLe le l ↔ a ∈ l :=
  (sortLe_perm le l).mem_iff

theorem nodup_sortLe (le : α → α → Bool) (l : List α) (h : l.Nodup) :
    (sortLe le l).Nodup :=
  (sortLe_perm le l).nodup_iff.mpr h

/-! ## General list helpers -/

theorem filter_length_le_one_of_nodup_map {α β : Type} [DecidableEq β]
    (l : List α) (f : α → β) (k : β) (h : (l.map f).Nodup) :
    (l.filter (fun x => decide (f x = k))).length ≤ 1 := by
  induction l with
  | nil => simp
  | cons x xs ih =>
      simp only [List.map_cons, List.nodup_cons] at h
      rw [List.filter_cons]
      by_cases hx : f x = k
      · rw [if_pos (by simpa using hx)]
        have htl : xs.filter (fun y => decide (f y = k)) = [] := by
          rw [List.filter_eq_nil_iff]
          intro y hy hdy
          refine h.1 ?_
          rw [List.mem_map]
          refine ⟨y, hy, ?_⟩
          have hfy : f y = k := by simpa using hdy
          rw [hfy, hx]
        simp [htl]
      · rw [if_neg (by simpa using hx)]
        exact ih h.2

theorem length_flatMap_list {α β : Type} (l : List α) (f : α → List β) :
    (l.flatMap f).length = (l.map (fun x => (f x).length)).sum := by
  induction l with
  | nil => rfl
  | cons x xs ih => simp [List.flatMap_cons, ih]

/-! ## Merge lemmas -/

theorem assoc_padTo (c : String) (cols : List String) (r : List Cell) :
    assocCell c cols (padTo cols.length r) = assocCell c cols r := by
  rw [assoc_eq_colIdx, assoc_eq_colIdx]
  cases h : colIdx cols c with
  | none => rfl
  | some i => exact cellAt_padTo cols.length r i (colIdx_lt_length cols c i h)

theorem mergeEmit_ne_nil (w1 : Nat) (cols2 : List String) (key : String)
    (i2 : Nat) (rows2 : List (List Cell)) (r1 : List Cell) (k : Cell) :
    mergeEmit w1 cols2 key i2 rows2 r1 k ≠ [] := by
  rw [mergeEmit]
  cases rowMatches i2 k rows2 with
  | nil => simp
  | cons m ms => simp

theorem mergeEmit_left_cells (w1 : Nat) (cols2 : List String) (key : String)
    (i2 : Nat) (rows2 : List (List Cell)) (r1 : List Cell) (k : Cell)
    (row : List Cell) (hrow : row ∈ mergeEmit w1 cols2 key i2 rows2 r1 k)
    (j : Nat) (hj : j < w1) : cellAt row j = cellAt r1 j := by
  rw [mergeEmit] at hrow
  cases hms : rowMatches i2 k rows2 with
  | nil =>
      rw [hms] at hrow
      simp only [List.mem_singleton] at hrow
      subst hrow
      rw [cellAt_append_lt _ _ j (by simpa [padTo_length] using hj)]
      exact cellAt_padTo w1 r1 j hj
  | cons m ms =>
      rw [hms] at hrow
      simp only [List.mem_map] at hrow
      obtain ⟨r2, _, rfl⟩ := hrow
      rw [cellAt_append_lt _ _ j (by simpa [padTo_length] using hj)]
      exact cellAt_padTo w1 r1 j hj

theorem mergeEmit_length (w1 : Nat) (cols2 : List String) (key : String)
    (i2 : Nat) (rows2 : List (List Cell)) (r1 : List Cell) (k : Cell) :
    (mergeEmit w1 cols2 key i2 rows2 r1 k).length =
      max 1 (rowMatches i2 k rows2).length := by
  rw [mergeEmit]
  cases hms : rowMatches i2 k rows2 with
  | nil => simp
  | cons m ms => simp [Nat.max_eq_right (by omega : 1 ≤ ms.length + 1)]

theorem mem_mergeEmit (w1 : Nat) (cols2 : List String) (key : String)
    (i2 : Nat) (rows2 : List (List Cell)) (r1 : List Cell) (k : Cell)
    (row : List Cell) (hrow : row ∈ mergeEmit w1 cols2 key i2 rows2 r1 k) :
    (rowMatches i2 k rows2 = [] ∧
      row = padTo w1 r1 ++ List.replicate (rightNames cols2 key).length none) ∨
    (∃ r2 ∈ rowMatches i2 k rows2,
      row = padTo w1 r1 ++
        filterRow (fun c => !(decide (c = key))) cols2 (padTo cols2.length r2)) := by
  rw [mergeEmit] at hrow
  cases hms : rowMatches i2 k rows2 with
  | nil =>
      rw [hms] at hrow
      simp only [List.mem_singleton] at hrow
      exact Or.inl ⟨rfl, hrow⟩
  | cons m ms =>
      rw [hms] at hrow
      simp only [List.mem_map] at hrow
      obtain ⟨r2, hr2, rfl⟩ := hrow
      exact Or.inr ⟨r2, hms ▸ hr2, rfl⟩

theorem mergeEmit_nomatch (w1 : Nat) (cols2 : List String) (key : String)
    (i2 : Nat) (rows2 : List (List Cell)) (r1 : List Cell) (k : Cell)
    (hms : rowMatches i2 k rows2 = []) :
    mergeEmit w1 cols2 key i2 rows2 r1 k =
      [padTo w1 r1 ++ List.replicate (rightNames cols2 key).length none] := by
  rw [mergeEmit, hms]

theorem mergeLeft_ok (t1 t2 : Table) (key : String) (i1 i2 : Nat)
    (h1 : colIdx t1.cols key = some i1) (h2 : colIdx t2.cols key = some i2) :
    mergeLeft t1 t2 key =
      .ok ⟨t1.cols ++ rightNames t2.cols key,
           t1.rows.flatMap (fun r1 =>
             mergeEmit t1.cols.length t2.cols key i2 t2.rows r1 (cellAt r1 i1))⟩ := by
  rw [mergeLeft, h1, h2]

/-! ## Membership and cell-content helpers -/

theorem except_bind_ok {e a b : Type} (x : a) (f : a → Except e b) :
    (Except.ok x >>= f) = f x := rfl

theorem except_bind_error {e a b : Type} (m : e) (f : a → Except e b) :
    ((Except.error m : Except e a) >>= f) = .error m := rfl

theorem mem_mapAt_cases (l : List Cell) (i : Nat) (f : Cell → Cell)
    (cell : Cell) (h : cell ∈ mapAt l i f) :
    cell ∈ l ∨ ∃ x ∈ l, cell = f x := by
  induction l generalizing i with
  | nil => simp [mapAt] at h
  | cons y ys ih =>
      cases i with
      | zero =>
          rw [mapAt] at h
          rcases List.mem_cons.mp h with h | h
          · exact Or.inr ⟨y, List.mem_cons_self y ys, h⟩
          · exact Or.inl (List.mem_cons_of_mem y h)
      | succ j =>
          rw [mapAt] at h
          rcases List.mem_cons.mp h with h | h
          · exact Or.inl (h ▸ List.mem_cons_self y ys)
          · rcases ih j h with h2 | ⟨x, hx, he⟩
            · exact Or.inl (List.mem_cons_of_mem y h2)
            · exact Or.inr ⟨x, List.mem_cons_of_mem y hx, he⟩

theorem mem_padTo_cases (w : Nat) (r : List Cell) (cell : Cell)
    (h : cell ∈ padTo w r) : cell = none ∨ cell ∈ r := by
  induction w generalizing r with
  | zero => simp [padTo] at h
  | succ n ih =>
      cases r with
      | nil =>
          rw [padTo] at h
          rcases List.mem_cons.mp h with h | h
          · exact Or.inl h
          · exact ih [] h
      | cons x xs =>
          rw [padTo] at h
          rcases List.mem_cons.mp h with h | h
          · exact Or.inr (h ▸ List.mem_cons_self x xs)
          · rcases ih xs h with h2 | h2
            · exact Or.inl h2
            · exact Or.inr (List.mem_cons_of_mem x h2)

theorem mem_filterRow (keep : String → Bool) (cols : List String)
    (r : List Cell) (cell : Cell) (h : cell ∈ filterRow keep cols r) :
    cell ∈ r := by
  induction cols generalizing r with
  | nil => simp [filterRow] at h
  | cons c0 cs ih =>
      cases r with
      | nil => simp [filterRow] at h
      | cons x xs =>
          rw [filterRow] at h
          by_cases hk : keep c0
          · rw [if_pos hk] at h
            rcases List.mem_cons.mp h with h | h
            · exact h ▸ List.mem_cons_self x xs
            · exact List.mem_cons_of_mem x (ih xs h)
          · rw [if_neg hk] at h
            exact List.mem_cons_of_mem x (ih xs h)

theorem dashToNA_not_dash (c : Cell) (s : String)
    (h : dashToNA c = some (.str s)) : trimChars s.data ≠ ['-'] := by
  match c with
  | none => simp [dashToNA] at h
  | some (.num d) => simp [dashToNA] at h
  | some (.str s0) =>
      rw [dashToNA] at h
      by_cases hd : trimChars s0.data = ['-']
      · rw [if_pos hd] at h; simp at h
      · rw [if_neg hd] at h
        have : s0 = s := by simpa using h
        exact this ▸ hd

theorem numCell_none_or_num (c : Cell) :
    numCell c = none ∨ ∃ d, numCell c = some (.num d) := by
  match c with
  | none => exact Or.inl rfl
  | some (.num d) => exact Or.inr ⟨d, rfl⟩
  | some (.str s) =>
      rw [numCell]
      cases parseDec s with
      | none => exact Or.inl rfl
      | some d => exact Or.inr ⟨d, rfl⟩

theorem numCell_ne_str (c : Cell) (s : String) :
    numCell c ≠ some (.str s) := by
  intro h
  rcases numCell_none_or_num c with h2 | ⟨d, h2⟩ <;> rw [h2] at h <;> simp at h

/-! ## Claim theorems -/

/-- Claim C8: the pipeline is deterministic — the embedding of the script
is a pure function of the four input tables, so two runs on identical
inputs produce identical output relations, including the column list
(whose order the pivot fixes by sorting) and the pivot tie-breaks. -/
theorem run_deterministic (series datatype occupation current : Table) :
    run series datatype occupation current = run series datatype occupation current := rfl

/-- Claim C6, counterexample: column names are only whitespace-trimmed,
never case-folded.  An observation table whose value column is spelled
`VALUE` makes the pipeline's observation stage raise its KeyError, while
the lower-case spelling is processed; headers differing only in letter
case therefore do not select the same columns, contradicting the claim. -/
theorem header_case_not_folded_cex :
    current_df currentUpperEx = .error "KeyError: value" ∧
    current_df currentEx = .ok ⟨["series_id", "value"], [[cstr "S1", cnum 45000 0]]⟩ :=
  ⟨rfl, rfl⟩

/-- Claim C6 (amended): for every source table, column names are
normalized by trimming surrounding whitespace (and only that — no case
folding) before any filter predicate is evaluated: any two tables whose
headers agree after trimming — in particular, headers differing only in
surrounding whitespace — are processed identically by every one of the
four loading stages. -/
theorem header_trim_only (t1 t2 : Table)
    (hcols : t1.cols.map trimS = t2.cols.map trimS)
    (hrows : t1.rows = t2.rows) :
    series_df t1 = series_df t2 ∧ datatype_df t1 = datatype_df t2 ∧
    occupation_df t1 = occupation_df t2 ∧ current_df t1 = current_df t2 := by
  have h : stripCols t1 = stripCols t2 := by
    rw [stripCols, stripCols, hcols, hrows]
  refine ⟨?_, ?_, ?_, ?_⟩
  · unfold series_df
    rw [h]
  · unfold datatype_df
    rw [h]
  · unfold occupation_df
    rw [h]
  · unfold current_df
    rw [h]
/-- Claim C4: when the observation table has no value column (after
header trimming), the observation-processing stage fails with the
KeyError, and the whole pipeline fails with an error no matter what the
other three tables are — the failure occurs at the numeric-coercion step,
which the script runs before either join, and no output relation is
produced. -/
theorem missing_value_column_fails (t : Table)
    (h : "value" ∉ t.cols.map trimS) :
    current_df t = .error "KeyError: value" ∧
    ∀ series datatype occupation, ∃ e, run series datatype occupation t = .error e := by
  have hnone : colIdx (dropCols (replaceDashAll (stripCols t))
      ["footnote_codes", "year", "period"]).cols "value" = none := by
    rw [colIdx_none_iff]
    intro hmem
    exact h (List.mem_of_mem_filter hmem)
  have hc : current_df t = .error "KeyError: value" := by
    show toNumericCol _ "value" = _
    rw [toNumericCol, hnone]
    rfl
  refine ⟨hc, ?_⟩
  intro sr dt oc
  cases hs : series_df sr with
  | error e => exact ⟨e, by rw [run, hs, except_bind_error]⟩
  | ok s =>
      cases hd : datatype_df dt with
      | error e => exact ⟨e, by rw [run, hs, except_bind_ok, hd, except_bind_error]⟩
      | ok d =>
          exact ⟨"KeyError: value", by
            rw [run, hs, except_bind_ok, hd, except_bind_ok, hc, except_bind_error]⟩

/-- Witness for C4 at a concrete observation table with only a series_id
column. -/
theorem missing_value_column_fails_w :
    "value" ∉ currentNoValueEx.cols.map trimS ∧
      current_df currentNoValueEx = .error "KeyError: value" :=
  ⟨by decide, (missing_value_column_fails currentNoValueEx (by decide)).1⟩

/-- Claim C2, counterexample: in the single-series end-to-end scenario
with observation value the lone dash, the final relation does NOT contain
a row for the (occupation_code, area_code) pair at all: the dash becomes
NA, the group's only value is NA, and the pivot's aggregation drops the
all-null group, so the output has no rows — the claim asserted the row
would be present with a null wage cell. -/
theorem dash_scenario_no_row_cex :
    run seriesEx datatypeEx occupationEx currentDashEx =
      .ok ⟨["occupation_code", "area_code", "occupation_name",
            "occupation_description"], []⟩ := rfl

/-! ## Structure of the processed observation table -/

theorem getCol_table_mk (cols : List String) (rows : List (List Cell))
    (c : String) (r : List Cell) :
    getCol ⟨cols, rows⟩ c r =
      (match colIdx cols c with | some i => cellAt r i | none => none) := rfl

theorem current_df_shape (t c' : Table) (hc : current_df t = .ok c') :
    ∃ i, colIdx (dropCols (replaceDashAll (stripCols t))
          ["footnote_codes", "year", "period"]).cols "value" = some i ∧
      c' = ⟨(dropCols (replaceDashAll (stripCols t))
               ["footnote_codes", "year", "period"]).cols,
            (dropCols (replaceDashAll (stripCols t))
               ["footnote_codes", "year", "period"]).rows.map
              (fun r => mapAt (padTo (dropCols (replaceDashAll (stripCols t))
                 ["footnote_codes", "year", "period"]).cols.length r) i numCell)⟩ := by
  have hc2 : toNumericCol (dropCols (replaceDashAll (stripCols t))
      ["footnote_codes", "year", "period"]) "value" = .ok c' := hc
  rw [toNumericCol] at hc2
  cases hidx : colIdx (dropCols (replaceDashAll (stripCols t))
      ["footnote_codes", "year", "period"]).cols "value" with
  | none => rw [hidx] at hc2; simp at hc2
  | some i =>
      rw [hidx] at hc2
      exact ⟨i, rfl, (Except.ok.inj hc2).symm⟩

theorem current_df_rows_clean (t c' : Table) (hc : current_df t = .ok c') :
    ∀ row ∈ c'.rows, ∀ cell ∈ row, ∀ s, cell = some (.str s) →
      trimChars s.data ≠ ['-'] := by
  obtain ⟨i, hidx, rfl⟩ := current_df_shape t c' hc
  intro row hrow cell hcell s hs hdash
  obtain ⟨r0, hr0, rfl⟩ := List.mem_map.mp hrow
  rcases mem_mapAt_cases _ i numCell cell hcell with hmem | ⟨x, hx, he⟩
  · rcases mem_padTo_cases _ r0 cell hmem with rfl | hmem2
    · simp at hs
    · obtain ⟨r1, hr1, rfl⟩ := List.mem_map.mp hr0
      have hcell2 := mem_filterRow _ _ _ cell hmem2
      rcases mem_padTo_cases _ r1 cell hcell2 with rfl | hmem3
      · simp at hs
      · obtain ⟨r2, hr2, rfl⟩ := List.mem_map.mp hr1
        obtain ⟨c0, hc0, rfl⟩ := List.mem_map.mp hmem3
        exact dashToNA_not_dash c0 s hs hdash
  · rw [he] at hs
    exact numCell_ne_str x s hs

theorem current_df_value_cell (t c' : Table) (hc : current_df t = .ok c') :
    ∀ row ∈ c'.rows, getCol c' "value" row = none ∨
      ∃ d, getCol c' "value" row = some (.num d) := by
  obtain ⟨i, hidx, rfl⟩ := current_df_shape t c' hc
  intro row hrow
  obtain ⟨r0, hr0, rfl⟩ := List.mem_map.mp hrow
  have hlen : i < (padTo (dropCols (replaceDashAll (stripCols t))
      ["footnote_codes", "year", "period"]).cols.length r0).length := by
    rw [padTo_length]
    exact colIdx_lt_length _ _ _ hidx
  have hgc : getCol ⟨(dropCols (replaceDashAll (stripCols t))
        ["footnote_codes", "year", "period"]).cols,
        (dropCols (replaceDashAll (stripCols t))
           ["footnote_codes", "year", "period"]).rows.map
          (fun r => mapAt (padTo (dropCols (replaceDashAll (stripCols t))
             ["footnote_codes", "year", "period"]).cols.length r) i numCell)⟩
        "value" (mapAt (padTo (dropCols (replaceDashAll (stripCols t))
           ["footnote_codes", "year", "period"]).cols.length r0) i numCell) =
      numCell (cellAt (padTo (dropCols (replaceDashAll (stripCols t))
        ["footnote_codes", "year", "period"]).cols.length r0) i) := by
    rw [getCol_table_mk, hidx]
    exact cellAt_mapAt_self _ i numCell hlen
  rw [hgc]
  exact numCell_none_or_num _

theorem getD_map_lt {α β : Type} (l : List α) (f : α → β) (k : Nat)
    (hk : k < l.length) (d : β) (d0 : α) :
    (l.map f).getD k d = f (l.getD k d0) := by
  induction l generalizing k with
  | nil => simp at hk
  | cons x xs ih =>
      cases k with
      | zero => rfl
      | succ kk => exact ih kk (by simpa using hk)

theorem assoc_map_cell (c : String) (cols : List String) (r : List Cell)
    (f : Cell → Cell) (hf : f none = none) :
    assocCell c cols (r.map f) = f (assocCell c cols r) := by
  induction cols generalizing r with
  | nil =>
      show (none : Cell) = f none
      exact hf.symm
  | cons c0 cs ih =>
      cases r with
      | nil =>
          show (none : Cell) = f none
          exact hf.symm
      | cons x xs =>
          show (if c0 = c then f x else assocCell c cs (xs.map f)) =
            f (if c0 = c then x else assocCell c cs xs)
          by_cases h0 : c0 = c
          · rw [if_pos h0, if_pos h0]
          · rw [if_neg h0, if_neg h0]
            exact ih xs

theorem assoc_mapAt_none (cols : List String) (cn : String) (X : List Cell)
    (i : Nat) (hX : assocCell cn cols X = none) :
    assocCell cn cols (mapAt (padTo cols.length X) i numCell) = none := by
  rw [assoc_eq_colIdx] at hX ⊢
  cases hj : colIdx cols cn with
  | none => rfl
  | some j =>
      rw [hj] at hX
      have hX2 : cellAt X j = none := hX
      show cellAt (mapAt (padTo cols.length X) i numCell) j = none
      by_cases hji : j = i
      · rw [← hji]
        rw [cellAt_mapAt_self _ _ _
          (by rw [padTo_length]; exact colIdx_lt_length _ _ _ hj)]
        rw [cellAt_padTo _ _ _ (colIdx_lt_length _ _ _ hj), hX2]
        rfl
      · rw [cellAt_mapAt_ne _ _ _ _ hji]
        rw [cellAt_padTo _ _ _ (colIdx_lt_length _ _ _ hj)]
        exact hX2

theorem current_row_dash_null (t : Table) (i : Nat) (r : List Cell)
    (cn s : String)
    (hraw : assocCell cn (stripCols t).cols r = some (.str s))
    (hdash : trimChars s.data = ['-']) :
    assocCell cn (dropCols (replaceDashAll (stripCols t))
        ["footnote_codes", "year", "period"]).cols
      (mapAt (padTo (dropCols (replaceDashAll (stripCols t))
          ["footnote_codes", "year", "period"]).cols.length
        (filterRow (fun c0 =>
            !(decide (c0 ∈ (["footnote_codes", "year", "period"] : List String))))
          (stripCols t).cols
          (padTo (stripCols t).cols.length (r.map dashToNA))))
        i numCell) = none := by
  have hX : assocCell cn (dropCols (replaceDashAll (stripCols t))
      ["footnote_codes", "year", "period"]).cols
      (filterRow (fun c0 =>
          !(decide (c0 ∈ (["footnote_codes", "year", "period"] : List String))))
        (stripCols t).cols
        (padTo (stripCols t).cols.length (r.map dashToNA))) = none := by
    show assocCell cn ((stripCols t).cols.filter (fun c0 =>
      !(decide (c0 ∈ (["footnote_codes", "year", "period"] : List String))))) _ = none
    rw [assoc_filterRow]
    by_cases hk : (fun c0 =>
        !(decide (c0 ∈ (["footnote_codes", "year", "period"] : List String)))) cn = true
    · rw [if_pos hk, assoc_padTo, assoc_map_cell _ _ _ _ rfl, hraw]
      show (if trimChars s.data = ['-'] then (none : Cell)
        else some (CellV.str s)) = none
      rw [if_pos hdash]
    · rw [if_neg hk]
  exact assoc_mapAt_none _ cn _ i hX

/-- Claim C2 (amended): the dash-to-null replacement turns every
dash-token cell of the observation table into null: the processed table
has one row per raw row, and whenever the raw cell under a (trimmed)
column name is a lone dash possibly surrounded by whitespace, the
corresponding cell of the corresponding processed row is null — never a
parsed zero and never the original string — and the value column holds
only numbers or null.  However, the pivot drops a
(occupation_code, area_code) group all of whose values are null, so in
the single-series scenario the final relation contains no row for the
pair at all instead of a row with a null cell. -/
theorem dash_becomes_null (t c' : Table) (hc : current_df t = .ok c') :
    c'.rows.length = t.rows.length ∧
    (∀ k, k < t.rows.length → ∀ cn s,
      assocCell cn (stripCols t).cols (t.rows.getD k []) = some (.str s) →
      trimChars s.data = ['-'] →
      assocCell cn c'.cols (c'.rows.getD k []) = none) ∧
    (∀ row ∈ c'.rows, getCol c' "value" row = none ∨
        ∃ d, getCol c' "value" row = some (.num d)) := by
  obtain ⟨i, hidx, hceq⟩ := current_df_shape t c' hc
  have hcols2 : c'.cols = (dropCols (replaceDashAll (stripCols t))
      ["footnote_codes", "year", "period"]).cols := by rw [hceq]
  have hrows2 : c'.rows =
      ((t.rows.map (fun r => r.map dashToNA)).map (fun r =>
        filterRow (fun c0 =>
            !(decide (c0 ∈ (["footnote_codes", "year", "period"] : List String))))
          (stripCols t).cols (padTo (stripCols t).cols.length r))).map
        (fun r => mapAt (padTo (dropCols (replaceDashAll (stripCols t))
          ["footnote_codes", "year", "period"]).cols.length r) i numCell) := by
    rw [hceq]
    rfl
  refine ⟨?_, ?_, current_df_value_cell t c' hc⟩
  · rw [hrows2]
    simp
  · intro k hk cn s hraw hdash
    rw [hrows2, hcols2]
    rw [getD_map_lt _ _ k (by simpa using hk) [] []]
    rw [getD_map_lt _ _ k (by simpa using hk) [] []]
    rw [getD_map_lt _ _ k hk [] []]
    exact current_row_dash_null t i (t.rows.getD k []) cn s hraw hdash

/-- Witness for the amended C2 at the dash-valued observation table: the
raw dash value cell corresponds to a null cell in the processed table. -/
theorem dash_becomes_null_w :
    current_df currentDashEx = .ok currentDashProcEx ∧
    assocCell "value" currentDashProcEx.cols
      (currentDashProcEx.rows.getD 0 []) = none :=
  ⟨rfl, (dash_becomes_null currentDashEx currentDashProcEx rfl).2.1 0
    (by decide) "value" "-" rfl rfl⟩

theorem cellAt_mem (r : List Cell) (i : Nat) (v : CellV)
    (h : cellAt r i = some v) : some v ∈ r := by
  induction r generalizing i with
  | nil => rw [cellAt_nil] at h; exact absurd h (by simp)
  | cons x xs ih =>
      cases i with
      | zero => exact h ▸ List.mem_cons_self x xs
      | succ j => exact List.mem_cons_of_mem x (ih j h)

/-- Claim C9, counterexample: an observation row whose series_id is a
dash token CAN match a series row — namely one whose own series_id is
null, since the merge treats two null keys as equal.  Concretely, the
series row with null series_id picks up the observation value 45000 that
came from the dash-keyed observation row, contradicting the claim's
"can never match any series row on series_id". -/
theorem null_key_matches_cex :
    (do
      let s ← series_df seriesNullIdEx
      let c ← current_df currentDashIdEx
      mergeLeft s c "series_id") =
      .ok ⟨["series_id", "datatype_code", "occupation_code", "area_code", "value"],
           [[none, cstr "11", cstr "O1", cstr "A1", cnum 45000 0]]⟩ := rfl

/-- Claim C9 (amended): the dash-to-null replacement is applied to every
column of the observation table, so a dash-token series_id is null in the
processed table (part 1: the series_id column never holds a dash token);
such a row can match only a series row whose own series_id is also null
(null merge keys compare equal), and never one with a non-null series_id
(part 2). -/
theorem dash_id_nulls_and_matching (craw c : Table) (i2 : Nat)
    (hc : current_df craw = .ok c)
    (hi2 : colIdx c.cols "series_id" = some i2) :
    (∀ row ∈ c.rows, ∀ s0, cellAt row i2 = some (.str s0) →
        trimChars s0.data ≠ ['-']) ∧
    (∀ (k : CellV) (r2 : List Cell), cellAt r2 i2 = none →
        r2 ∉ rowMatches i2 (some k) c.rows) := by
  constructor
  · intro row hrow s0 hcell
    have hmem : some (.str s0) ∈ row := cellAt_mem row i2 _ hcell
    exact current_df_rows_clean craw c hc row hrow _ hmem s0 rfl
  · intro k r2 hnull hmem
    rw [rowMatches] at hmem
    have h2 : cellAt r2 i2 = some k := by
      simpa using (List.mem_filter.mp hmem).2
    rw [hnull] at h2
    simp at h2

/-- Witness for the amended C9: the processed dash-keyed observation row
has a null series_id and is not among the matches of the non-null key S1. -/
theorem dash_id_nulls_and_matching_w :
    current_df currentDashIdEx = .ok currentDashIdProcEx ∧
    colIdx currentDashIdProcEx.cols "series_id" = some 0 ∧
    [none, cnum 45000 0] ∉ rowMatches 0 (some (.str "S1")) currentDashIdProcEx.rows :=
  ⟨rfl, rfl, (dash_id_nulls_and_matching currentDashIdEx currentDashIdProcEx 0
      rfl rfl).2 (.str "S1") [none, cnum 45000 0] rfl⟩

/-- Claim C7: the first join (series left-joined with observations on
series_id) retains every series row.  The number of merged rows is the
sum over series rows of `max 1 k` where `k` counts the matching
observation rows (so a series row matching k ≥ 1 observations yields k
rows — the fan-out — and an unmatched one yields one row); every series
row reappears with its left cells intact; and an unmatched series row
reappears with every right-hand cell null, in particular a null value. -/
theorem first_join_left_outer (s c m : Table) (i1 i2 : Nat)
    (h1 : colIdx s.cols "series_id" = some i1)
    (h2 : colIdx c.cols "series_id" = some i2)
    (hm : mergeLeft s c "series_id" = .ok m) :
    m.rows.length = (s.rows.map (fun r1 =>
        max 1 (rowMatches i2 (cellAt r1 i1) c.rows).length)).sum ∧
    (∀ r1 ∈ s.rows, ∃ row ∈ m.rows, ∀ j, j < s.cols.length →
        cellAt row j = cellAt r1 j) ∧
    (∀ r1 ∈ s.rows, rowMatches i2 (cellAt r1 i1) c.rows = [] →
        ∃ row ∈ m.rows, (∀ j, j < s.cols.length → cellAt row j = cellAt r1 j) ∧
          ∀ j, s.cols.length ≤ j → cellAt row j = none) := by
  rw [mergeLeft_ok s c "series_id" i1 i2 h1 h2] at hm
  have hmeq := (Except.ok.inj hm).symm
  subst hmeq
  refine ⟨?_, ?_, ?_⟩
  · show (s.rows.flatMap _).length = _
    rw [length_flatMap_list]
    have hpt : ∀ r1 : List Cell,
        (mergeEmit s.cols.length c.cols "series_id" i2 c.rows r1 (cellAt r1 i1)).length =
          max 1 (rowMatches i2 (cellAt r1 i1) c.rows).length := fun r1 =>
      mergeEmit_length _ _ _ _ _ _ _
    simp only [hpt]
  · intro r1 hr1
    obtain ⟨row, hrow⟩ := List.exists_mem_of_ne_nil _
      (mergeEmit_ne_nil s.cols.length c.cols "series_id" i2 c.rows r1 (cellAt r1 i1))
    refine ⟨row, List.mem_flatMap.mpr ⟨r1, hr1, hrow⟩, ?_⟩
    intro j hj
    exact mergeEmit_left_cells _ _ _ _ _ _ _ row hrow j hj
  · intro r1 hr1 hnomatch
    have hemit := mergeEmit_nomatch s.cols.length c.cols "series_id" i2 c.rows r1
      (cellAt r1 i1) hnomatch
    refine ⟨padTo s.cols.length r1 ++
        List.replicate (rightNames c.cols "series_id").length none,
      List.mem_flatMap.mpr ⟨r1, hr1, by rw [hemit]; exact List.mem_singleton.mpr rfl⟩,
      ?_, ?_⟩
    · intro j hj
      rw [cellAt_append_lt _ _ j (by simpa [padTo_length] using hj)]
      exact cellAt_padTo _ r1 j hj
    · intro j hj
      rw [cellAt_append_ge _ _ j (by simpa [padTo_length] using hj)]
      exact cellAt_replicate _ _

/-- Witness for C7: S1 matches two observation rows and fans out, S2
matches none; the merged relation has 2 + 1 rows. -/
theorem first_join_left_outer_w :
    mergeLeft seriesPairEx currentFanEx "series_id" = .ok mergeFanEx ∧
    mergeFanEx.rows.length = (seriesPairEx.rows.map (fun r1 =>
        max 1 (rowMatches 0 (cellAt r1 0) currentFanEx.rows).length)).sum :=
  ⟨rfl, (first_join_left_outer seriesPairEx currentFanEx mergeFanEx 0 0
      rfl rfl rfl).1⟩

/-! ## Pivot lemmas -/

theorem pivot_df_shape (m p : Table) (hp : pivot_df m = .ok p) :
    ∃ j1 j2 jc jv,
      colIdx m.cols "occupation_code" = some j1 ∧
      colIdx m.cols "area_code" = some j2 ∧
      colIdx m.cols "datatype_name" = some jc ∧
      colIdx m.cols "value" = some jv ∧
      p = ⟨"occupation_code" :: "area_code" ::
             (pivotLabels m.rows j1 j2 jc jv).map CellV.toColName,
           (pivotRowKeys m.rows j1 j2 jc jv).map (pivotRow m.rows j1 j2 jc jv)⟩ := by
  have hp2 : pivotTable m "occupation_code" "area_code" "datatype_name" "value" = .ok p := hp
  rw [pivotTable] at hp2
  cases e1 : colIdx m.cols "occupation_code" with
  | none => rw [e1] at hp2; simp at hp2
  | some j1 =>
      rw [e1] at hp2
      cases e2 : colIdx m.cols "area_code" with
      | none => rw [e2] at hp2; simp at hp2
      | some j2 =>
          rw [e2] at hp2
          cases e3 : colIdx m.cols "datatype_name" with
          | none => rw [e3] at hp2; simp at hp2
          | some jc =>
              rw [e3] at hp2
              cases e4 : colIdx m.cols "value" with
              | none => rw [e4] at hp2; simp at hp2
              | some jv =>
                  rw [e4] at hp2
                  exact ⟨j1, j2, jc, jv, rfl, rfl, rfl, rfl,
                    (Except.ok.inj hp2).symm⟩

theorem mem_keyed_filterMap {κ : Type} (l : List κ) (f : κ → Option CellV)
    (k : κ) (v : CellV)
    (h : (k, v) ∈ l.filterMap (fun k0 => (f k0).map (fun w => (k0, w)))) :
    k ∈ l ∧ f k = some v := by
  obtain ⟨a, ha, hfa⟩ := List.mem_filterMap.mp h
  cases hf : f a with
  | none => rw [hf] at hfa; simp at hfa
  | some w =>
      rw [hf] at hfa
      have : (a, w) = (k, v) := by simpa using hfa
      have hak : a = k := congrArg Prod.fst this
      have hwv : w = v := congrArg Prod.snd this
      subst hak; subst hwv
      exact ⟨ha, hf⟩

theorem keyed_filterMap_mem {κ : Type} (l : List κ) (f : κ → Option CellV)
    (k : κ) (v : CellV) (hk : k ∈ l) (hv : f k = some v) :
    (k, v) ∈ l.filterMap (fun k0 => (f k0).map (fun w => (k0, w))) :=
  List.mem_filterMap.mpr ⟨k, hk, by rw [hv]; rfl⟩

theorem fst_keyed_filterMap_sub {κ : Type} (l : List κ) (f : κ → Option CellV)
    (x : κ) (h : x ∈ (l.filterMap (fun k0 => (f k0).map (fun w => (k0, w)))).map Prod.fst) :
    x ∈ l := by
  obtain ⟨pr, hpr, rfl⟩ := List.mem_map.mp h
  exact (mem_keyed_filterMap l f pr.1 pr.2 (by simpa using hpr)).1

theorem nodup_fst_keyed_filterMap {κ : Type} (l : List κ) (f : κ → Option CellV)
    (hl : l.Nodup) :
    ((l.filterMap (fun k0 => (f k0).map (fun w => (k0, w)))).map Prod.fst).Nodup := by
  induction l with
  | nil => simp
  | cons k ks ih =>
      rw [List.nodup_cons] at hl
      rw [List.filterMap_cons]
      cases hf : f k with
      | none => exact ih hl.2
      | some w =>
          show (List.map Prod.fst ((k, w) ::
            ks.filterMap (fun k0 => (f k0).map (fun w0 => (k0, w0))))).Nodup
          rw [List.map_cons, List.nodup_cons]
          refine ⟨?_, ih hl.2⟩
          intro hmem
          exact hl.1 (fst_keyed_filterMap_sub ks f k hmem)

theorem lookupKey_mem {κ : Type} [DecidableEq κ] (al : List (κ × CellV))
    (k : κ) (v : CellV) (h : (k, v) ∈ al) :
    ∃ w, lookupKey k al = some w := by
  induction al with
  | nil => simp at h
  | cons p ps ih =>
      rw [lookupKey]
      by_cases hp : p.1 = k
      · exact ⟨p.2, by rw [if_pos hp]⟩
      · rcases List.mem_cons.mp h with h | h
        · exact absurd (congrArg Prod.fst h.symm) hp
        · rw [if_neg hp]
          exact ih h

theorem lookupKey_eq_of_nodup {κ : Type} [DecidableEq κ] (al : List (κ × CellV))
    (k : κ) (v : CellV) (hnd : (al.map Prod.fst).Nodup) (h : (k, v) ∈ al) :
    lookupKey k al = some v := by
  induction al with
  | nil => simp at h
  | cons p ps ih =>
      rw [List.map_cons, List.nodup_cons] at hnd
      rw [lookupKey]
      rcases List.mem_cons.mp h with h | h
      · rw [if_pos (congrArg Prod.fst h.symm)]
        rw [← h]
      · by_cases hp : p.1 = k
        · exfalso
          refine hnd.1 ?_
          rw [hp]
          exact List.mem_map.mpr ⟨(k, v), h, rfl⟩
        · rw [if_neg hp]
          exact ih hnd.2 h

theorem pivotAgged_keys_nodup (rows : List (List Cell)) (j1 j2 jc jv : Nat) :
    ((pivotAgged rows j1 j2 jc jv).map Prod.fst).Nodup :=
  nodup_fst_keyed_filterMap _ _ (List.nodup_dedup _)

theorem pivotRowKeys_nodup (rows : List (List Cell)) (j1 j2 jc jv : Nat) :
    (pivotRowKeys rows j1 j2 jc jv).Nodup :=
  nodup_sortLe _ _ (List.nodup_dedup _)

theorem rowkey_has_label (rows : List (List Cell)) (j1 j2 jc jv : Nat)
    (ab : CellV × CellV) (hab : ab ∈ pivotRowKeys rows j1 j2 jc jv) :
    ∃ l v, ((ab.1, ab.2, l), v) ∈ pivotAgged rows j1 j2 jc jv ∧
      l ∈ pivotLabels rows j1 j2 jc jv := by
  rw [pivotRowKeys, mem_sortLe, List.mem_dedup] at hab
  obtain ⟨pr, hpr, hproj⟩ := List.mem_map.mp hab
  refine ⟨pr.1.2.2, pr.2, ?_, ?_⟩
  · have : ((pr.1.1, pr.1.2.1, pr.1.2.2), pr.2) = pr := by
      simp
    rw [← hproj, this]
    exact hpr
  · rw [pivotLabels, mem_sortLe, List.mem_dedup]
    exact List.mem_map.mpr ⟨pr, hpr, rfl⟩

theorem pivotRow_length (rows : List (List Cell)) (j1 j2 jc jv : Nat)
    (ab : CellV × CellV) :
    (pivotRow rows j1 j2 jc jv ab).length =
      2 + (pivotLabels rows j1 j2 jc jv).length := by
  rw [pivotRow]
  simp
  omega

theorem take_append_of_length {α : Type} (l1 l2 : List α) (n : Nat)
    (h : l1.length = n) : (l1 ++ l2).take n = l1 := by
  rw [← h, List.take_left]

theorem mergeLeft_error_left (t1 t2 : Table) (key : String)
    (h : colIdx t1.cols key = none) :
    mergeLeft t1 t2 key = .error ("KeyError: " ++ key) := by
  rw [mergeLeft, h]

theorem mergeLeft_error_right (t1 t2 : Table) (key : String) (i1 : Nat)
    (h1 : colIdx t1.cols key = some i1) (h2 : colIdx t2.cols key = none) :
    mergeLeft t1 t2 key = .error ("KeyError: " ++ key) := by
  rw [mergeLeft, h1, h2]

theorem final_rows_structure (p o f : Table) (hf : final_df p o = .ok f) :
    ∀ row ∈ f.rows, ∃ prow ∈ p.rows, ∃ rest,
      row = padTo p.cols.length prow ++ rest := by
  intro row hrow
  have hf2 : (do
      let osel ← selectCols o ["occupation_code", "occupation_name",
        "occupation_description"]
      mergeLeft p osel "occupation_code") = .ok f := hf
  cases hsel : selectCols o ["occupation_code", "occupation_name",
      "occupation_description"] with
  | error e => rw [hsel, except_bind_error] at hf2; simp at hf2
  | ok osel =>
      rw [hsel, except_bind_ok] at hf2
      cases hidx1 : colIdx p.cols "occupation_code" with
      | none =>
          rw [mergeLeft_error_left p osel "occupation_code" hidx1] at hf2
          simp at hf2
      | some i1 =>
          cases hidx2 : colIdx osel.cols "occupation_code" with
          | none =>
              rw [mergeLeft_error_right p osel "occupation_code" i1 hidx1 hidx2] at hf2
              simp at hf2
          | some i2 =>
              rw [mergeLeft_ok p osel "occupation_code" i1 i2 hidx1 hidx2] at hf2
              have hfeq := (Except.ok.inj hf2).symm
              rw [hfeq] at hrow
              obtain ⟨prow, hprow, hrow2⟩ := List.mem_flatMap.mp hrow
              rcases mem_mergeEmit _ _ _ _ _ _ _ _ hrow2 with ⟨_, he⟩ | ⟨r2, _, he⟩
              · exact ⟨prow, hprow, _, he⟩
              · exact ⟨prow, hprow, _, he⟩

/-- Claim C10: every row of the pivoted wide relation carries at least
one non-null cell among its label columns (positions 2 and up), and those
cells survive unchanged into the corresponding rows of the final
relation; a (occupation_code, area_code) group all of whose values are
null is dropped by the pivot aggregation and is absent from the output
entirely. -/
theorem pivot_rows_have_value (m p o f : Table)
    (hp : pivot_df m = .ok p) (hf : final_df p o = .ok f) :
    (∀ row ∈ p.rows, (row.drop 2).any (fun c => c.isSome) = true) ∧
    (∀ row ∈ f.rows, ((row.take p.cols.length).drop 2).any
        (fun c => c.isSome) = true) := by
  obtain ⟨j1, j2, jc, jv, e1, e2, e3, e4, hpeq⟩ := pivot_df_shape m p hp
  have partA : ∀ row ∈ p.rows, (row.drop 2).any (fun c => c.isSome) = true := by
    rw [hpeq]
    intro row hrow
    obtain ⟨ab, hab, rfl⟩ := List.mem_map.mp hrow
    obtain ⟨l, v, hmem, hl⟩ := rowkey_has_label m.rows j1 j2 jc jv ab hab
    obtain ⟨w, hw⟩ := lookupKey_mem _ _ _ hmem
    rw [pivotRow]
    show ((pivotLabels m.rows j1 j2 jc jv).map _).any _ = true
    rw [List.any_eq_true]
    refine ⟨lookupKey (ab.1, ab.2, l) (pivotAgged m.rows j1 j2 jc jv),
      List.mem_map.mpr ⟨l, hl, rfl⟩, ?_⟩
    rw [hw]
    rfl
  refine ⟨partA, ?_⟩
  intro row hrow
  obtain ⟨prow, hprow, rest, rfl⟩ := final_rows_structure p o f hf row hrow
  have hplen : prow.length = p.cols.length := by
    rw [hpeq] at hprow
    obtain ⟨ab, hab, rfl⟩ := List.mem_map.mp hprow
    rw [pivotRow_length, hpeq]
    simp
    omega
  rw [take_append_of_length _ _ _ (padTo_length _ _)]
  rw [padTo_of_length_eq _ _ hplen]
  exact partA prow hprow

/-- Witness for C10 at the two-row long-format table: the pivot row and
its final-relation image carry the non-null cell 5. -/
theorem pivot_rows_have_value_w :
    pivot_df mergedPairEx = .ok pivotPairEx ∧
    final_df pivotPairEx occupationEx = .ok finalPairEx ∧
    (([cstr "O1", cstr "A1", cnum 5 0] : List Cell).drop 2).any
      (fun c => c.isSome) = true :=
  ⟨rfl, rfl, (pivot_rows_have_value mergedPairEx pivotPairEx occupationEx
      finalPairEx rfl rfl).1 [cstr "O1", cstr "A1", cnum 5 0]
      (by simp [pivotPairEx])⟩

/-! ## First-non-null lemmas for the pivot cell -/

theorem firstSome_mem (l : List Cell) (v : CellV)
    (h : firstSome l = some v) : some v ∈ l := by
  induction l with
  | nil => rw [firstSome] at h; simp at h
  | cons x xs ih =>
      match x with
      | none =>
          rw [firstSome] at h
          exact List.mem_cons_of_mem none (ih h)
      | some w =>
          rw [firstSome] at h
          rw [← h]
          exact List.mem_cons_self _ xs

theorem exists_pos_map_cellAt (labels : List CellV) (f : CellV → Cell)
    (l : CellV) (hl : l ∈ labels) :
    ∃ li, labels.getD li (.str "") = l ∧ cellAt (labels.map f) li = f l := by
  induction labels with
  | nil => simp at hl
  | cons x xs ih =>
      rcases List.mem_cons.mp hl with rfl | hl2
      · exact ⟨0, rfl, rfl⟩
      · obtain ⟨li, hget, hcell⟩ := ih hl2
        exact ⟨li + 1, by simpa using hget, by simpa [cellAt] using hcell⟩

/-- Claim C3, counterexample: for the (O1, A1, L) group the value cells
in input order are `[null, 5]`, yet the pivot populates the cell with 5 —
the first NON-null value — not with the first row's null value as the
claim (which includes the null case) states. -/
theorem pivot_first_in_order_cex :
    groupVals mergedPairEx.rows 0 1 2 3 (.str "O1", .str "A1", .str "L") =
      [none, cnum 5 0] ∧
    pivot_df mergedPairEx = .ok pivotPairEx ∧
    cellAt (pivotPairEx.rows.getD 0 []) 2 = cnum 5 0 :=
  ⟨rfl, rfl, rfl⟩

theorem lookupKey_some_mem {κ : Type} [DecidableEq κ] (al : List (κ × CellV))
    (k : κ) (w : CellV) (h : lookupKey k al = some w) : (k, w) ∈ al := by
  induction al with
  | nil => rw [lookupKey] at h; simp at h
  | cons p ps ih =>
      rw [lookupKey] at h
      by_cases hp : p.1 = k
      · rw [if_pos hp] at h
        have hw : p.2 = w := Option.some.inj h
        exact List.mem_cons.mpr (Or.inl (Prod.ext hp hw).symm)
      · rw [if_neg hp] at h
        exact List.mem_cons_of_mem p (ih h)

theorem cellAt_map_getD (l : List CellV) (f : CellV → Cell) (li : Nat)
    (h : li < l.length) :
    cellAt (l.map f) li = f (l.getD li (.str "")) := by
  induction l generalizing li with
  | nil => simp at h
  | cons x xs ih =>
      cases li with
      | zero => rfl
      | succ kk => exact ih kk (by simpa using h)

/-- Claim C3 (amended): for every (occupation_code, area_code, label)
group, the pivot populates the group's cell with the FIRST NON-NULL value
of the group in input order, discarding the rest (part 1); and a group
whose values are ALL null contributes no cell at all — its aggregated
entry is dropped, so in every output row carrying the group's key the
cell in that label's column is null (part 2). -/
theorem pivot_first_nonnull (m p : Table) (j1 j2 jc jv : Nat) (a b l : CellV)
    (e1 : colIdx m.cols "occupation_code" = some j1)
    (e2 : colIdx m.cols "area_code" = some j2)
    (e3 : colIdx m.cols "datatype_name" = some jc)
    (e4 : colIdx m.cols "value" = some jv)
    (hp : pivot_df m = .ok p) :
    (∀ v, firstSome (groupVals m.rows j1 j2 jc jv (a, b, l)) = some v →
      ∃ li, (pivotLabels m.rows j1 j2 jc jv).getD li (.str "") = l ∧
        ∃ row ∈ p.rows, cellAt row 0 = some a ∧ cellAt row 1 = some b ∧
          cellAt row (li + 2) = some v) ∧
    (firstSome (groupVals m.rows j1 j2 jc jv (a, b, l)) = none →
      ∀ row ∈ p.rows, cellAt row 0 = some a → cellAt row 1 = some b →
        ∀ li, li < (pivotLabels m.rows j1 j2 jc jv).length →
          (pivotLabels m.rows j1 j2 jc jv).getD li (.str "") = l →
          cellAt row (li + 2) = none) := by
  obtain ⟨j1t, j2t, jct, jvt, f1, f2, f3, f4, hpeq⟩ := pivot_df_shape m p hp
  rw [f1] at e1; rw [f2] at e2; rw [f3] at e3; rw [f4] at e4
  have hj1 : j1 = j1t := (Option.some.inj e1).symm
  have hj2 : j2 = j2t := (Option.some.inj e2).symm
  have hjc : jc = jct := (Option.some.inj e3).symm
  have hjv : jv = jvt := (Option.some.inj e4).symm
  subst hj1; subst hj2; subst hjc; subst hjv
  constructor
  · intro v hv
    -- the group key occurs in the long rows
    have hkmem : (a, b, l) ∈ ((pivotLong m.rows j1 j2 jc jv).map Prod.fst).dedup := by
      rw [List.mem_dedup]
      have hvm := firstSome_mem _ _ hv
      rw [groupVals] at hvm
      obtain ⟨pr, hpr, _⟩ := List.mem_map.mp hvm
      have hprk : pr.1 = (a, b, l) := by
        simpa using (List.mem_filter.mp hpr).2
      exact hprk ▸ List.mem_map.mpr ⟨pr, (List.mem_filter.mp hpr).1, rfl⟩
    have hagged : ((a, b, l), v) ∈ pivotAgged m.rows j1 j2 jc jv :=
      keyed_filterMap_mem _ _ (a, b, l) v hkmem hv
    have hab : (a, b) ∈ pivotRowKeys m.rows j1 j2 jc jv := by
      rw [pivotRowKeys, mem_sortLe, List.mem_dedup]
      exact List.mem_map.mpr ⟨((a, b, l), v), hagged, rfl⟩
    have hl : l ∈ pivotLabels m.rows j1 j2 jc jv := by
      rw [pivotLabels, mem_sortLe, List.mem_dedup]
      exact List.mem_map.mpr ⟨((a, b, l), v), hagged, rfl⟩
    obtain ⟨li, hget, hcell⟩ := exists_pos_map_cellAt
      (pivotLabels m.rows j1 j2 jc jv)
      (fun l0 => lookupKey (a, b, l0) (pivotAgged m.rows j1 j2 jc jv)) l hl
    refine ⟨li, hget, pivotRow m.rows j1 j2 jc jv (a, b), ?_, rfl, rfl, ?_⟩
    · rw [hpeq]
      exact List.mem_map.mpr ⟨(a, b), hab, rfl⟩
    · show cellAt ((pivotLabels m.rows j1 j2 jc jv).map _) li = some v
      rw [hcell]
      exact lookupKey_eq_of_nodup _ _ _ (pivotAgged_keys_nodup m.rows j1 j2 jc jv) hagged
  · intro hnone row hrow h0 h1 li hlt hget
    rw [hpeq] at hrow
    obtain ⟨ab, hab, rfl⟩ := List.mem_map.mp hrow
    have h0b : some ab.1 = some a := h0
    have h1b : some ab.2 = some b := h1
    have ha : ab.1 = a := Option.some.inj h0b
    have hb : ab.2 = b := Option.some.inj h1b
    show cellAt ((pivotLabels m.rows j1 j2 jc jv).map
      (fun l0 => lookupKey (ab.1, ab.2, l0) (pivotAgged m.rows j1 j2 jc jv))) li = none
    rw [cellAt_map_getD _ _ li hlt, hget, ha, hb]
    cases hlk : lookupKey (a, b, l) (pivotAgged m.rows j1 j2 jc jv) with
    | none => rfl
    | some w =>
        exfalso
        have hmem := lookupKey_some_mem _ _ _ hlk
        have hf := (mem_keyed_filterMap
          (((pivotLong m.rows j1 j2 jc jv).map Prod.fst).dedup)
          (fun k => firstSome (groupVals m.rows j1 j2 jc jv k))
          (a, b, l) w hmem).2
        rw [hnone] at hf
        simp at hf

/-- Witness for the amended C3 at the two-row group with values
`[null, 5]`: the populated cell holds 5, the first non-null value. -/
theorem pivot_first_nonnull_w :
    firstSome (groupVals mergedPairEx.rows 0 1 2 3
      (.str "O1", .str "A1", .str "L")) = some (.num ⟨5, 0⟩) ∧
    ∃ li, (pivotLabels mergedPairEx.rows 0 1 2 3).getD li (.str "") = .str "L" ∧
      ∃ row ∈ pivotPairEx.rows, cellAt row 0 = cstr "O1" ∧
        cellAt row 1 = cstr "A1" ∧ cellAt row (li + 2) = cnum 5 0 :=
  ⟨rfl, (pivot_first_nonnull mergedPairEx pivotPairEx 0 1 2 3
    (.str "O1") (.str "A1") (.str "L") rfl rfl rfl rfl rfl).1 (.num ⟨5, 0⟩) rfl⟩

/-! ## Shape lemmas for the merge pipeline -/

theorem mergeLeft_shape (t1 t2 t3 : Table) (key : String)
    (h : mergeLeft t1 t2 key = .ok t3) :
    ∃ i1 i2, colIdx t1.cols key = some i1 ∧ colIdx t2.cols key = some i2 ∧
      t3 = ⟨t1.cols ++ rightNames t2.cols key,
            t1.rows.flatMap (fun r1 =>
              mergeEmit t1.cols.length t2.cols key i2 t2.rows r1 (cellAt r1 i1))⟩ := by
  cases h1 : colIdx t1.cols key with
  | none => rw [mergeLeft_error_left t1 t2 key h1] at h; simp at h
  | some i1 =>
      cases h2 : colIdx t2.cols key with
      | none => rw [mergeLeft_error_right t1 t2 key i1 h1 h2] at h; simp at h
      | some i2 =>
          rw [mergeLeft_ok t1 t2 key i1 i2 h1 h2] at h
          exact ⟨i1, i2, rfl, rfl, (Except.ok.inj h).symm⟩

theorem fillnaCol_shape (t t' : Table) (c v : String)
    (h : fillnaCol t c v = .ok t') :
    ∃ i, colIdx t.cols c = some i ∧
      t' = ⟨t.cols, t.rows.map (fun r => mapAt (padTo t.cols.length r) i
        (fun x => match x with | none => some (.str v) | x => x))⟩ := by
  rw [fillnaCol] at h
  cases hidx : colIdx t.cols c with
  | none => rw [hidx] at h; simp at h
  | some i =>
      rw [hidx] at h
      exact ⟨i, rfl, (Except.ok.inj h).symm⟩

theorem filterMemStr_shape (t t' : Table) (c : String) (vs : List String)
    (h : filterMemStr t c vs = .ok t') :
    ∃ i, colIdx t.cols c = some i ∧ t'.cols = t.cols ∧
      ∀ r ∈ t'.rows, ∃ nm, cellAt r i = some (.str nm) ∧ nm ∈ vs := by
  rw [filterMemStr] at h
  cases hidx : colIdx t.cols c with
  | none => rw [hidx] at h; simp at h
  | some i =>
      rw [hidx] at h
      have he := (Except.ok.inj h).symm
      refine ⟨i, rfl, by rw [he], ?_⟩
      intro r hr
      rw [he] at hr
      have hp := (List.mem_filter.mp hr).2
      cases hcell : cellAt r i with
      | none => rw [hcell] at hp; simp at hp
      | some cv =>
          cases cv with
          | num d => rw [hcell] at hp; simp at hp
          | str nm =>
              rw [hcell] at hp
              exact ⟨nm, rfl, by simpa using hp⟩

theorem mem_pivotLong (rows : List (List Cell)) (j1 j2 jc jv : Nat)
    (pr : (CellV × CellV × CellV) × Cell) (h : pr ∈ pivotLong rows j1 j2 jc jv) :
    ∃ r ∈ rows, cellAt r j1 = some pr.1.1 ∧ cellAt r j2 = some pr.1.2.1 ∧
      cellAt r jc = some pr.1.2.2 ∧ pr.2 = cellAt r jv := by
  obtain ⟨r, hr, he⟩ := List.mem_filterMap.mp h
  cases ha : cellAt r j1 with
  | none => rw [ha] at he; simp at he
  | some a =>
      rw [ha] at he
      cases hb : cellAt r j2 with
      | none => rw [hb] at he; simp at he
      | some b =>
          rw [hb] at he
          cases hc : cellAt r jc with
          | none => rw [hc] at he; simp at he
          | some c =>
              rw [hc] at he
              have he2 : ((a, b, c), cellAt r jv) = pr := by simpa using he
              refine ⟨r, hr, ?_, ?_, ?_, ?_⟩
              · rw [← he2]; exact ha
              · rw [← he2]; exact hb
              · rw [← he2]; exact hc
              · rw [← he2]

theorem pivotLabels_from_rows (rows : List (List Cell)) (j1 j2 jc jv : Nat)
    (l : CellV) (hl : l ∈ pivotLabels rows j1 j2 jc jv) :
    ∃ r ∈ rows, cellAt r jc = some l := by
  rw [pivotLabels, mem_sortLe, List.mem_dedup] at hl
  obtain ⟨entry, hent, hproj⟩ := List.mem_map.mp hl
  have hkey := (mem_keyed_filterMap (((pivotLong rows j1 j2 jc jv).map Prod.fst).dedup)
    (fun k => firstSome (groupVals rows j1 j2 jc jv k)) entry.1 entry.2 hent).1
  rw [List.mem_dedup] at hkey
  obtain ⟨pr, hpr, hk⟩ := List.mem_map.mp hkey
  obtain ⟨r, hr, h1, h2, h3, h4⟩ := mem_pivotLong rows j1 j2 jc jv pr hpr
  refine ⟨r, hr, ?_⟩
  rw [h3, hk, hproj]

/-- Claim C5: after filtering the data-type table to the five-label
allow-list, joining, and applying the MISSING fill, the datatype_name
cell of every long-format row is an allow-listed label or the sentinel
"MISSING"; hence every pivot column name is one of the two key-column
names, an allow-listed label, or "MISSING" — no other label is ever
introduced.  The hypotheses ask that the series and observation tables do
not themselves carry a column named datatype_name (in pandas such a
collision would be suffixed away; the model excludes it). -/
theorem labels_in_allowlist (draw s c d m p : Table)
    (hd : datatype_df draw = .ok d)
    (hs : "datatype_name" ∉ s.cols)
    (hc : "datatype_name" ∉ c.cols)
    (hm : merged_df s c d = .ok m)
    (hp : pivot_df m = .ok p) :
    (∀ row ∈ m.rows, ∃ nm, getCol m "datatype_name" row = some (.str nm) ∧
        (nm ∈ desired_datatypes ∨ nm = "MISSING")) ∧
    (∀ cn ∈ p.cols, cn = "occupation_code" ∨ cn = "area_code" ∨
        cn ∈ desired_datatypes ∨ cn = "MISSING") := by
  -- the filtered data-type table only carries allow-listed labels
  have hd2 : filterMemStr (stripCols draw) "datatype_name" desired_datatypes = .ok d := hd
  obtain ⟨idn, hidn, hdcols, hdrows⟩ := filterMemStr_shape _ _ _ _ hd2
  have hidn2 : colIdx d.cols "datatype_name" = some idn := by rw [hdcols]; exact hidn
  have hdassoc : ∀ rd ∈ d.rows, ∃ nm,
      assocCell "datatype_name" d.cols rd = some (.str nm) ∧ nm ∈ desired_datatypes := by
    intro rd hrd
    obtain ⟨nm, hcell, hnm⟩ := hdrows rd hrd
    refine ⟨nm, ?_, hnm⟩
    rw [assoc_eq_colIdx, hidn2]
    exact hcell
  -- decompose the merge chain
  have hm2 : (do
      let m1 ← mergeLeft s c "series_id"
      let m2 ← mergeLeft m1 d "datatype_code"
      let m3 ← fillnaCol m2 "datatype_name" "MISSING"
      pure (dropCols m3 ["series_id", "datatype_code"])) = .ok m := hm
  cases h1 : mergeLeft s c "series_id" with
  | error e => rw [h1, except_bind_error] at hm2; simp at hm2
  | ok m1 =>
  rw [h1, except_bind_ok] at hm2
  cases h2 : mergeLeft m1 d "datatype_code" with
  | error e => rw [h2, except_bind_error] at hm2; simp at hm2
  | ok m2 =>
  rw [h2, except_bind_ok] at hm2
  cases h3 : fillnaCol m2 "datatype_name" "MISSING" with
  | error e => rw [h3, except_bind_error] at hm2; simp at hm2
  | ok m3 =>
  rw [h3, except_bind_ok] at hm2
  have hmeq : m = dropCols m3 ["series_id", "datatype_code"] := (Except.ok.inj hm2).symm
  obtain ⟨i1, i2, hi1, hi2, hm1eq⟩ := mergeLeft_shape s c m1 "series_id" h1
  obtain ⟨k1, k2, hk1, hk2, hm2eq⟩ := mergeLeft_shape m1 d m2 "datatype_code" h2
  obtain ⟨ifn, hifn, hm3eq⟩ := fillnaCol_shape m2 m3 "datatype_name" "MISSING" h3
  have hnm1 : "datatype_name" ∉ m1.cols := by
    rw [hm1eq]
    intro hmem
    rcases List.mem_append.mp hmem with hmem | hmem
    · exact hs hmem
    · exact hc (List.mem_of_mem_filter hmem)
  have hcols2 : m2.cols = m1.cols ++ rightNames d.cols "datatype_code" := by rw [hm2eq]
  -- the datatype_name cell of each merged row is null or an allow-listed label
  have hm2assoc : ∀ row2 ∈ m2.rows,
      assocCell "datatype_name" m2.cols row2 = none ∨
      ∃ nm, assocCell "datatype_name" m2.cols row2 = some (.str nm) ∧
        nm ∈ desired_datatypes := by
    intro row2 hrow2
    rw [hm2eq] at hrow2
    obtain ⟨r1, hr1, hrow3⟩ := List.mem_flatMap.mp hrow2
    rcases mem_mergeEmit _ _ _ _ _ _ _ _ hrow3 with ⟨_, he⟩ | ⟨r2, hr2, he⟩
    · left
      rw [hcols2, he, assoc_append _ _ _ _ _ (by rw [padTo_length]), if_neg hnm1]
      exact assoc_replicate _ _ _
    · right
      have hr2d : r2 ∈ d.rows := by
        rw [rowMatches] at hr2
        exact List.mem_of_mem_filter hr2
      obtain ⟨nm, hnmcell, hnmmem⟩ := hdassoc r2 hr2d
      refine ⟨nm, ?_, hnmmem⟩
      rw [hcols2, he, assoc_append _ _ _ _ _ (by rw [padTo_length]), if_neg hnm1]
      rw [show rightNames d.cols "datatype_code" =
        d.cols.filter (fun c0 => !(decide (c0 = "datatype_code"))) from rfl]
      rw [assoc_filterRow, if_pos (by decide), assoc_padTo]
      exact hnmcell
  have hifn_lt : ifn < m2.cols.length := colIdx_lt_length _ _ _ hifn
  -- after the fill, the cell is an allow-listed label or MISSING
  have hm3assoc : ∀ row3 ∈ m3.rows, ∃ nm,
      assocCell "datatype_name" m2.cols row3 = some (.str nm) ∧
      (nm ∈ desired_datatypes ∨ nm = "MISSING") := by
    intro row3 hrow3
    rw [hm3eq] at hrow3
    obtain ⟨row2, hrow2, he⟩ := List.mem_map.mp hrow3
    have hcell : assocCell "datatype_name" m2.cols row3 =
        (fun x => match x with
          | none => some (CellV.str "MISSING")
          | x => x) (assocCell "datatype_name" m2.cols row2) := by
      rw [← he]
      rw [assoc_eq_colIdx, hifn]
      show cellAt (mapAt (padTo m2.cols.length row2) ifn _) ifn = _
      rw [cellAt_mapAt_self _ _ _ (by rw [padTo_length]; exact hifn_lt)]
      rw [cellAt_padTo _ _ _ hifn_lt]
      rw [assoc_eq_colIdx, hifn]
    rcases hm2assoc row2 hrow2 with hnone | ⟨nm, hsome, hmemd⟩
    · exact ⟨"MISSING", by rw [hcell, hnone], Or.inr rfl⟩
    · exact ⟨nm, by rw [hcell, hsome], Or.inl hmemd⟩
  -- part 1: through the final column drop
  have hpart1 : ∀ row ∈ m.rows, ∃ nm,
      getCol m "datatype_name" row = some (.str nm) ∧
      (nm ∈ desired_datatypes ∨ nm = "MISSING") := by
    intro row hrow
    rw [hmeq] at hrow
    obtain ⟨row3, hrow3, he⟩ := List.mem_map.mp hrow
    have hm3cols : m3.cols = m2.cols := by rw [hm3eq]
    obtain ⟨nm, hsome, hmemd⟩ := hm3assoc row3 hrow3
    refine ⟨nm, ?_, hmemd⟩
    rw [getCol_eq_assoc, hmeq, ← he]
    rw [show (dropCols m3 ["series_id", "datatype_code"]).cols =
      m3.cols.filter (fun c0 =>
        !(decide (c0 ∈ (["series_id", "datatype_code"] : List String)))) from rfl]
    show assocCell "datatype_name" _ (filterRow _ m3.cols (padTo m3.cols.length row3)) = _
    rw [assoc_filterRow, if_pos (by decide), hm3cols, assoc_padTo]
    exact hsome
  -- part 2: the pivot column names
  obtain ⟨j1, j2, jc, jv, e1, e2, e3, e4, hpeq⟩ := pivot_df_shape m p hp
  refine ⟨hpart1, ?_⟩
  intro cn hcn
  rw [hpeq] at hcn
  rcases List.mem_cons.mp hcn with rfl | hcn2
  · exact Or.inl rfl
  rcases List.mem_cons.mp hcn2 with rfl | hcn3
  · exact Or.inr (Or.inl rfl)
  obtain ⟨l, hlmem, rfl⟩ := List.mem_map.mp hcn3
  obtain ⟨r, hr, hcell⟩ := pivotLabels_from_rows m.rows j1 j2 jc jv l hlmem
  obtain ⟨nm, hsome, hmemd⟩ := hpart1 r hr
  rw [getCol_eq_assoc, assoc_eq_colIdx, e3] at hsome
  have hls : some l = some (CellV.str nm) := by
    rw [← hcell]
    exact hsome
  have hl2 : l = CellV.str nm := Option.some.inj hls
  rw [hl2]
  rcases hmemd with hmemd | hmemd
  · exact Or.inr (Or.inr (Or.inl hmemd))
  · exact Or.inr (Or.inr (Or.inr (by rw [show CellV.toColName (.str nm) = nm from rfl]; exact hmemd)))

/-- Witness for C5: in the processed example pipeline the pivot column
name "Annual median wage" is an allow-listed label. -/
theorem labels_in_allowlist_w :
    merged_df seriesProcEx currentProcEx datatypeEx = .ok mergedProcEx ∧
    pivot_df mergedProcEx = .ok pivotProcEx ∧
    ("Annual median wage" = "occupation_code" ∨
      "Annual median wage" = "area_code" ∨
      "Annual median wage" ∈ desired_datatypes ∨
      "Annual median wage" = "MISSING") :=
  ⟨rfl, rfl, (labels_in_allowlist datatypeEx seriesProcEx currentProcEx
      datatypeEx mergedProcEx pivotProcEx rfl (by decide) (by decide) rfl rfl).2
    "Annual median wage" (by simp [pivotProcEx])⟩

/-! ## Uniqueness of the final keys -/

theorem selectCols_shape (t t' : Table) (cs : List String)
    (h : selectCols t cs = .ok t') :
    t' = ⟨cs, t.rows.map (fun r => cs.map (fun c0 => getCol t c0 r))⟩ := by
  rw [selectCols] at h
  by_cases hb : (cs.all (fun c0 => decide (c0 ∈ t.cols))) = true
  · rw [if_pos hb] at h
    exact (Except.ok.inj h).symm
  · rw [if_neg hb] at h
    simp at h

theorem map_congr_mem {α β : Type} (l : List α) (f g : α → β)
    (h : ∀ a ∈ l, f a = g a) : l.map f = l.map g := by
  induction l with
  | nil => rfl
  | cons x xs ih =>
      rw [List.map_cons, List.map_cons, h x (List.mem_cons_self x xs),
        ih (fun a ha => h a (List.mem_cons_of_mem x ha))]

theorem map_flatMap_of_singletons {α β γ : Type} (l : List α) (f : α → List β)
    (g : β → γ) (G : α → γ) (h : ∀ x ∈ l, ∃ y, f x = [y] ∧ g y = G x) :
    (l.flatMap f).map g = l.map G := by
  induction l with
  | nil => rfl
  | cons x xs ih =>
      obtain ⟨y, hfy, hgy⟩ := h x (List.mem_cons_self x xs)
      rw [List.flatMap_cons, List.map_append, List.map_cons, hfy,
        ih (fun a ha => h a (List.mem_cons_of_mem x ha))]
      simp [hgy]

/-- Claim C1: under the precondition that occupation_code is a unique key
of the (projected) occupation lookup table, every row of the final
relation has a distinct (occupation_code, area_code) pair: the pivot
emits one row per distinct key pair, and the enrichment join cannot fan
out. -/
theorem final_keys_unique (m o p osel f : Table)
    (hp : pivot_df m = .ok p)
    (hsel : selectCols o ["occupation_code", "occupation_name",
      "occupation_description"] = .ok osel)
    (hf : final_df p o = .ok f)
    (hu : (osel.rows.map (fun r => cellAt r 0)).Nodup) :
    (f.rows.map (fun r =>
      (getCol f "occupation_code" r, getCol f "area_code" r))).Nodup := by
  obtain ⟨j1, j2, jc, jv, e1, e2, e3, e4, hpeq⟩ := pivot_df_shape m p hp
  have hpcols : p.cols = "occupation_code" :: "area_code" ::
      (pivotLabels m.rows j1 j2 jc jv).map CellV.toColName := by rw [hpeq]
  have hprows : p.rows = (pivotRowKeys m.rows j1 j2 jc jv).map
      (pivotRow m.rows j1 j2 jc jv) := by rw [hpeq]
  have hf2 : (do
      let osel2 ← selectCols o ["occupation_code", "occupation_name",
        "occupation_description"]
      mergeLeft p osel2 "occupation_code") = .ok f := hf
  rw [hsel, except_bind_ok] at hf2
  obtain ⟨i1, i2, hi1, hi2, hfeq⟩ := mergeLeft_shape p osel f "occupation_code" hf2
  have hosel := selectCols_shape o _ _ hsel
  have hoselcols : osel.cols = ["occupation_code", "occupation_name",
      "occupation_description"] := by rw [hosel]
  have hi1z : i1 = 0 := by
    rw [hpcols] at hi1
    rw [show colIdx ("occupation_code" :: "area_code" ::
      (pivotLabels m.rows j1 j2 jc jv).map CellV.toColName) "occupation_code" =
      some 0 from rfl] at hi1
    exact (Option.some.inj hi1).symm
  have hi2z : i2 = 0 := by
    rw [hoselcols] at hi2
    rw [show colIdx ["occupation_code", "occupation_name",
      "occupation_description"] "occupation_code" = some 0 from rfl] at hi2
    exact (Option.some.inj hi2).symm
  subst hi1z; subst hi2z
  have hfcols : f.cols = p.cols ++ rightNames osel.cols "occupation_code" := by
    rw [hfeq]
  have hfrows : f.rows = p.rows.flatMap (fun r1 =>
      mergeEmit p.cols.length osel.cols "occupation_code" 0 osel.rows r1
        (cellAt r1 0)) := by
    rw [hfeq]
  have hfidx1 : colIdx f.cols "occupation_code" = some 0 := by
    rw [hfcols, hpcols]
    rfl
  have hfidx2 : colIdx f.cols "area_code" = some 1 := by
    rw [hfcols, hpcols]
    rfl
  have hmapeq : f.rows.map (fun r =>
      (getCol f "occupation_code" r, getCol f "area_code" r)) =
      f.rows.map (fun r => (cellAt r 0, cellAt r 1)) := by
    refine map_congr_mem _ _ _ ?_
    intro r _
    rw [getCol, getCol, hfidx1, hfidx2]
  rw [hmapeq, hfrows]
  have h2len : 2 ≤ p.cols.length := by
    rw [hpcols]
    simp
  have hone : ∀ prow ∈ p.rows, ∃ row,
      mergeEmit p.cols.length osel.cols "occupation_code" 0 osel.rows prow
        (cellAt prow 0) = [row] ∧
      (fun r : List Cell => (cellAt r 0, cellAt r 1)) row =
        (fun r : List Cell => (cellAt r 0, cellAt r 1)) prow := by
    intro prow _
    have hle : (rowMatches 0 (cellAt prow 0) osel.rows).length ≤ 1 := by
      rw [rowMatches]
      exact filter_length_le_one_of_nodup_map osel.rows
        (fun r => cellAt r 0) (cellAt prow 0) hu
    have hlen1 : (mergeEmit p.cols.length osel.cols "occupation_code" 0
        osel.rows prow (cellAt prow 0)).length = 1 := by
      rw [mergeEmit_length]
      omega
    obtain ⟨row, hrow⟩ := List.length_eq_one.mp hlen1
    refine ⟨row, hrow, ?_⟩
    have hmem : row ∈ mergeEmit p.cols.length osel.cols "occupation_code" 0
        osel.rows prow (cellAt prow 0) := by
      rw [hrow]
      exact List.mem_singleton.mpr rfl
    have h0 := mergeEmit_left_cells _ _ _ _ _ _ _ row hmem 0 (by omega)
    have h1 := mergeEmit_left_cells _ _ _ _ _ _ _ row hmem 1 (by omega)
    show (cellAt row 0, cellAt row 1) = (cellAt prow 0, cellAt prow 1)
    rw [h0, h1]
  rw [map_flatMap_of_singletons _ _ _
    (fun r : List Cell => (cellAt r 0, cellAt r 1)) hone]
  rw [hprows, List.map_map]
  rw [show ((fun r : List Cell => (cellAt r 0, cellAt r 1)) ∘
      pivotRow m.rows j1 j2 jc jv) =
    (fun ab => ((some ab.1 : Cell), (some ab.2 : Cell))) from rfl]
  refine List.Nodup.map ?_ (pivotRowKeys_nodup m.rows j1 j2 jc jv)
  intro x y hxy
  have hx1 : x.1 = y.1 := Option.some.inj (congrArg Prod.fst hxy)
  have hx2 : x.2 = y.2 := Option.some.inj (congrArg Prod.snd hxy)
  exact Prod.ext hx1 hx2
/-- Witness for C1: the one-row pivot merged with the one-row occupation
lookup yields pairwise-distinct (occupation_code, area_code) pairs. -/
theorem final_keys_unique_w :
    final_df pivotPairEx occupationEx = .ok finalPairEx ∧
    (finalPairEx.rows.map (fun r =>
      (getCol finalPairEx "occupation_code" r,
       getCol finalPairEx "area_code" r))).Nodup :=
  ⟨rfl, final_keys_unique mergedPairEx occupationEx pivotPairEx occupationEx
    finalPairEx rfl rfl rfl (by decide)⟩

/-- Witness for C8 at the concrete example tables. -/
theorem run_deterministic_w :
    run seriesEx datatypeEx occupationEx currentEx =
      run seriesEx datatypeEx occupationEx currentEx :=
  run_deterministic seriesEx datatypeEx occupationEx currentEx

/-- Witness for the amended C6: a whitespace-padded header pair is
processed like the clean pair by the observation stage. -/
theorem header_trim_only_w :
    (["  series_id", " value "] : List String).map trimS =
      (["series_id", "value"] : List String).map trimS ∧
    current_df ⟨["  series_id", " value "], [[cstr "S1", cstr "45000"]]⟩ =
      current_df ⟨["series_id", "value"], [[cstr "S1", cstr "45000"]]⟩ :=
  ⟨rfl, (header_trim_only
      ⟨["  series_id", " value "], [[cstr "S1", cstr "45000"]]⟩
      ⟨["series_id", "value"], [[cstr "S1", cstr "45000"]]⟩ rfl rfl).2.2.2⟩
end BLS
